import Mathlib

/-!
# Financial Forensics Engine — verification of the graph-analysis core

Shallow embedding of the analysis core (`graph-analysis.ts`: `buildGraph`,
`buildAdjacency`, `buildLinkMaps`, `detectCycles`, `hasHighVelocity`,
`detectSmurfing`, `detectShells`, `computeSuspicionScore`, `analyzeGraph`).

Modelling conventions:
* JS strings are Lean `String`s; equality of JS strings is `String` equality.
* Timestamps enter the core as strings and are immediately mapped through
  `new Date(t).getTime()`; we embed a timestamp as its parsed epoch-millisecond
  value (`Int`), since the input contract guarantees parseability and the core
  uses nothing but `getTime()` of it.
* Amounts are embedded as `Int`.
* A JS `Map`/`Set` that is only queried by key is embedded as its lookup
  function / membership list; JS `Set` iteration order (insertion order,
  first occurrence wins) is embedded by `setInsert`.
* The in-place mutation of `Node.patterns` / `Node.riskScore` / `Node.val` by
  the orchestrator is embedded by functional update of the node list.
* The two depth-first searches (`findCycles`, `findShellChains`) recurse along
  a mutable path with strictly paired push/pop; they are embedded as
  structurally recursive functions on an explicit fuel argument, with the path
  passed functionally.  The fuel chosen by the entry points dominates the
  length of any chain of recursive calls (cycle search is depth-capped at 5,
  shell search extends only along never-revisited shell candidates), so the
  fuel never runs out and the embedding computes the same result as the source.
-/

namespace FFE

structure Transaction where
  transaction_id : String
  sender_id : String
  receiver_id : String
  amount : Int
  timestamp : Int
deriving DecidableEq

structure Node where
  id : String
  riskScore : Nat
  flags : List String
  patterns : List String
  inDegree : Nat
  outDegree : Nat
  totalIn : Int
  totalOut : Int
  val : Nat
deriving DecidableEq

structure Link where
  source : String
  target : String
  amount : Int
  timestamp : Int
  transaction_id : String
deriving DecidableEq

structure GraphData where
  nodes : List Node
  links : List Link
deriving DecidableEq

structure FraudRing where
  id : String
  type : String
  riskScore : Nat
  members : List String
  patternDetails : String
deriving DecidableEq

structure SuspiciousAccount where
  account_id : String
  suspicion_score : Nat
  detected_patterns : List String
  ring_id : Option String
deriving DecidableEq

structure Summary where
  total_accounts : Nat
  flagged_accounts : Nat
  rings_detected : Nat
  total_transactions : Nat
deriving DecidableEq

/-- The analysis result; `processingTime` (wall-clock duration) is not part of
the functional behaviour and is omitted from the embedding. -/
structure AnalysisResult where
  graph : GraphData
  fraudRings : List FraudRing
  suspiciousAccounts : List SuspiciousAccount
  summary : Summary
deriving DecidableEq

/-- JS `Set` insertion: append the element unless already present
(first occurrence wins, insertion order preserved). -/
def setInsert (l : List String) (a : String) : List String :=
  if a ∈ l then l else l ++ [a]

/-- Fresh node as created by `buildGraph` the first time an id is seen. -/
def freshNode (i : String) : Node :=
  { id := i, riskScore := 0, flags := [], patterns := [],
    inDegree := 0, outDegree := 0, totalIn := 0, totalOut := 0, val := 1 }

/-- `if (!nodesMap.has(id)) nodesMap.set(id, {...})` on the insertion-ordered map. -/
def ensureNode (nodes : List Node) (i : String) : List Node :=
  if nodes.any (fun n => n.id = i) then nodes else nodes ++ [freshNode i]

/-- `sender.outDegree++; sender.totalOut += tx.amount`. -/
def bumpOut (nodes : List Node) (i : String) (amt : Int) : List Node :=
  nodes.map fun n =>
    if n.id = i then { n with outDegree := n.outDegree + 1, totalOut := n.totalOut + amt } else n

/-- `receiver.inDegree++; receiver.totalIn += tx.amount`. -/
def bumpIn (nodes : List Node) (i : String) (amt : Int) : List Node :=
  nodes.map fun n =>
    if n.id = i then { n with inDegree := n.inDegree + 1, totalIn := n.totalIn + amt } else n

/-- One iteration of the `buildGraph` loop over transactions. -/
def buildStep (g : GraphData) (tx : Transaction) : GraphData :=
  let ns0 := ensureNode (ensureNode g.nodes tx.sender_id) tx.receiver_id
  let ns1 := bumpIn (bumpOut ns0 tx.sender_id tx.amount) tx.receiver_id tx.amount
  { nodes := ns1,
    links := g.links ++ [{ source := tx.sender_id, target := tx.receiver_id,
                           amount := tx.amount, timestamp := tx.timestamp,
                           transaction_id := tx.transaction_id }] }

/-- `buildGraph` (graph-analysis.ts §1): one node per distinct account id in
first-seen order, one link per transaction in input order. -/
def buildGraph (transactions : List Transaction) : GraphData :=
  transactions.foldl buildStep { nodes := [], links := [] }

/-- `buildAdjacency`: the map `source ↦ ordered targets` realised as its lookup
function (the map pushes each link's target onto its source's list in link
order, so lookup of `s` yields the targets of the links with source `s`, in
link order). -/
def buildAdjacency (links : List Link) (s : String) : List String :=
  (links.filter fun l => l.source = s).map fun l => l.target

/-- `buildLinkMaps.byTarget` realised as its lookup function. -/
def linksByTarget (links : List Link) (t : String) : List Link :=
  links.filter fun l => l.target = t

/-- `buildLinkMaps.bySource` realised as its lookup function. -/
def linksBySource (links : List Link) (s : String) : List Link :=
  links.filter fun l => l.source = s

/-- `String(n).padStart(3, '0')`. -/
def pad3 (n : Nat) : String :=
  let s := toString n
  if 3 ≤ s.length then s else String.mk (List.replicate (3 - s.length) '0') ++ s

/-- Lexicographic comparison of character sequences (the order JS `sort()`
uses on strings, by code unit). -/
def charListLe : List Char → List Char → Bool
  | [], _ => true
  | _ :: _, [] => false
  | a :: as, b :: bs =>
    if a.toNat < b.toNat then true
    else if b.toNat < a.toNat then false
    else charListLe as bs

/-- Lexicographic order on strings. -/
def strLe (a b : String) : Prop := charListLe a.toList b.toList = true

instance : DecidableRel strLe := fun a b =>
  inferInstanceAs (Decidable (charListLe a.toList b.toList = true))

/-- Cycle dedup signature: `[...cycleMembers].sort().join(',')` —
the lexicographically sorted, comma-joined member list. -/
def cycleSig (members : List String) : String :=
  String.intercalate "," (members.insertionSort strLe)

/-- State of the cycle search: emitted rings plus the `recordedCycles` key set
(persisting across all start nodes, as in the source). -/
structure CycState where
  rings : List FraudRing
  recorded : List String
deriving DecidableEq

/-- The cycle-found branch: record unless the signature is already present. -/
def recordCycle (start : String) (depth : Nat) (path : List String) (st : CycState) : CycState :=
  let key := cycleSig path
  if key ∈ st.recorded then st
  else
    { rings := st.rings ++ [{
        id := "RING_" ++ pad3 (st.rings.length + 1),
        type := "cycle", riskScore := 90, members := path,
        patternDetails := "Circular fund routing: " ++ String.intercalate " → " path ++
          " → " ++ start ++ " (length " ++ toString depth ++ ")" }],
      recorded := st.recorded ++ [key] }

/-- `findCycles` with the enclosing neighbor loop made explicit: `path` is the
current path including the node being visited, `neighbors` the not-yet-handled
suffix of that node's adjacency list.  The fuel argument only makes the
recursion structural; every chain of calls shortens `neighbors` or descends
(bounded by depth 5), so the entry point's fuel is never exhausted. -/
def cycleGo (adj : String → List String) (start : String) :
    Nat → Nat → List String → List String → CycState → CycState
  | 0, _, _, _, st => st
  | fuel + 1, depth, path, neighbors, st =>
    match neighbors with
    | [] => st
    | n :: rest =>
      let st' :=
        if n = start ∧ 3 ≤ depth ∧ depth ≤ 5 then recordCycle start depth path st
        else if n ∉ path ∧ depth < 5 then
          cycleGo adj start fuel (depth + 1) (path ++ [n]) (adj n) st
        else st
      cycleGo adj start fuel depth path rest st'

/-- Ample fuel for `cycleGo`: any chain of recursive calls makes at most 4
descents (depth is capped at 5) and, per level, at most one step per neighbor
(at most `links.length` neighbors). -/
def cycleFuel (g : GraphData) : Nat := 6 * (g.links.length + 1)

/-- `detectCycles` (§2): depth-limited DFS from every node. -/
def detectCycles (g : GraphData) (adj : String → List String) : List FraudRing :=
  (g.nodes.foldl
    (fun st node => cycleGo adj node.id (cycleFuel g) 1 [node.id] (adj node.id) st)
    { rings := [], recorded := [] }).rings

/-- `hasHighVelocity` (§3): sort parsed timestamps ascending and slide a
window of `countThreshold` consecutive entries. -/
def hasHighVelocity (timestamps : List Int) (countThreshold : Nat) (windowHours : Nat) : Bool :=
  if timestamps.length < countThreshold then false
  else
    let times := timestamps.insertionSort (· ≤ ·)
    let windowMs : Int := (windowHours : Int) * 60 * 60 * 1000
    (List.range (timestamps.length - countThreshold + 1)).any fun i =>
      times.getD (i + countThreshold - 1) 0 - times.getD i 0 ≤ windowMs

/-- `new Set(array)` enumerated by `Array.from`: first-occurrence order. -/
def uniqueFirst (l : List String) : List String := l.foldl setInsert []

/-- The `fan_in` ring pushed by `detectSmurfing`. -/
def fanInRing (count : Nat) (nodeId : String) (senders : List String) : FraudRing :=
  { id := "FANIN_" ++ pad3 (count + 1), type := "fan_in", riskScore := 85,
    members := nodeId :: senders,
    patternDetails := "Fan-in aggregator: " ++ toString senders.length ++
      " accounts → " ++ nodeId ++ " within 72h window" }

/-- The `fan_out` ring pushed by `detectSmurfing`. -/
def fanOutRing (count : Nat) (nodeId : String) (receivers : List String) : FraudRing :=
  { id := "FANOUT_" ++ pad3 (count + 1), type := "fan_out", riskScore := 85,
    members := nodeId :: receivers,
    patternDetails := "Fan-out dispersal: " ++ nodeId ++ " → " ++
      toString receivers.length ++ " accounts within 72h window" }

/-- The fan-in block of the `detectSmurfing` node loop. -/
def fanInCheck (byTarget : String → List Link) (rings : List FraudRing)
    (node : Node) : List FraudRing :=
  if 10 ≤ node.inDegree ∧ node.outDegree ≤ 2 then
    let incomingLinks := byTarget node.id
    let senders := uniqueFirst (incomingLinks.map fun l => l.source)
    if 10 ≤ senders.length then
      if hasHighVelocity (incomingLinks.map fun l => l.timestamp) 10 72 then
        rings ++ [fanInRing rings.length node.id senders]
      else rings
    else rings
  else rings

/-- The fan-out block of the `detectSmurfing` node loop. -/
def fanOutCheck (bySource : String → List Link) (rings : List FraudRing)
    (node : Node) : List FraudRing :=
  if 10 ≤ node.outDegree ∧ node.inDegree ≤ 2 then
    let outgoingLinks := bySource node.id
    let receivers := uniqueFirst (outgoingLinks.map fun l => l.target)
    if 10 ≤ receivers.length then
      if hasHighVelocity (outgoingLinks.map fun l => l.timestamp) 10 72 then
        rings ++ [fanOutRing rings.length node.id receivers]
      else rings
    else rings
  else rings

/-- One iteration of the `detectSmurfing` node loop (§4): the merchant guard,
then the fan-in block, then the fan-out block (sequentially extending the
ring list, as in the source). -/
def smurfStep (byTarget bySource : String → List Link) (rings : List FraudRing)
    (node : Node) : List FraudRing :=
  if 5 ≤ node.inDegree ∧ 5 ≤ node.outDegree then rings
  else fanOutCheck bySource (fanInCheck byTarget rings node) node

/-- `detectSmurfing` (§4). -/
def detectSmurfing (g : GraphData) (byTarget bySource : String → List Link) : List FraudRing :=
  g.nodes.foldl (smurfStep byTarget bySource) []

/-- Shell-candidate ids: 2-3 total transactions, at least one in and one out. -/
def shellCandidates (g : GraphData) : List String :=
  (g.nodes.filter fun n =>
    2 ≤ n.inDegree + n.outDegree ∧ n.inDegree + n.outDegree ≤ 3 ∧
      0 < n.inDegree ∧ 0 < n.outDegree).map fun n => n.id

/-- The shell-chain dedup key `fullChain.join('→')`, embedded as the character
sequence of the joined string. -/
def joinKey (chain : List String) : List Char :=
  List.intercalate ['→'] (chain.map String.toList)

/-- State of the shell search: emitted rings and `recordedChains` keys. -/
structure ShellState where
  rings : List FraudRing
  recorded : List (List Char)
deriving DecidableEq

/-- The chain-found branch of `findShellChains`. -/
def recordChain (fullChain : List String) (st : ShellState) : ShellState :=
  let key := joinKey fullChain
  if key ∈ st.recorded then st
  else
    { rings := st.rings ++ [{
        id := "SHELL_" ++ pad3 (st.rings.length + 1),
        type := "shell", riskScore := 80, members := fullChain,
        patternDetails := "Layered shell chain: " ++ String.intercalate " → " fullChain ++
          " (" ++ toString (fullChain.length - 1) ++ " hops)" }],
      recorded := st.recorded ++ [key] }

/-- `findShellChains` with the neighbor loop made explicit (same convention as
`cycleGo`); the fuel only makes the recursion structural — descents happen only
into never-revisited shell candidates, so chains of calls are bounded and the
entry point's fuel is never exhausted. -/
def shellGo (adj : String → List String) (cands : List String) :
    Nat → List String → List String → ShellState → ShellState
  | 0, _, _, st => st
  | fuel + 1, path, neighbors, st =>
    match neighbors with
    | [] => st
    | n :: rest =>
      let st' :=
        if n ∈ path then st
        else if n ∈ cands then shellGo adj cands fuel (path ++ [n]) (adj n) st
        else if 3 ≤ path.length ∧ (∃ p ∈ path, p ∈ cands) then recordChain (path ++ [n]) st
        else st
      shellGo adj cands fuel path rest st'

/-- Ample fuel for `shellGo`: a chain of calls makes at most `nodes.length`
descents (each consumes a fresh shell candidate) and at most `links.length`
neighbor steps per level. -/
def shellFuel (g : GraphData) : Nat := (g.nodes.length + 2) * (g.links.length + 2)

/-- `detectShells` (§5): DFS from every non-shell node. -/
def detectShells (g : GraphData) (adj : String → List String) : List FraudRing :=
  let cands := shellCandidates g
  (g.nodes.foldl
    (fun st node =>
      if node.id ∈ cands then st
      else shellGo adj cands (shellFuel g) [node.id] (adj node.id) st)
    { rings := [], recorded := [] }).rings

/-- State for the spec-worded reference shell detector: dedup keys are the
member sequences themselves. -/
structure ShellSeqState where
  rings : List FraudRing
  recordedSeqs : List (List String)
deriving DecidableEq

/-- Chain-found branch of the reference detector, deduplicating by the exact
member sequence. -/
def recordChainSeq (fullChain : List String) (st : ShellSeqState) : ShellSeqState :=
  if fullChain ∈ st.recordedSeqs then st
  else
    { rings := st.rings ++ [{
        id := "SHELL_" ++ pad3 (st.rings.length + 1),
        type := "shell", riskScore := 80, members := fullChain,
        patternDetails := "Layered shell chain: " ++ String.intercalate " → " fullChain ++
          " (" ++ toString (fullChain.length - 1) ++ " hops)" }],
      recordedSeqs := st.recordedSeqs ++ [fullChain] }

/-- Reference traversal following the spec's words for §4.5 dedup
("deduplicated by exact member-sequence key"): identical to `shellGo` except
the dedup key is the member sequence itself rather than the joined string. -/
def shellGoSeq (adj : String → List String) (cands : List String) :
    Nat → List String → List String → ShellSeqState → ShellSeqState
  | 0, _, _, st => st
  | fuel + 1, path, neighbors, st =>
    match neighbors with
    | [] => st
    | n :: rest =>
      let st' :=
        if n ∈ path then st
        else if n ∈ cands then shellGoSeq adj cands fuel (path ++ [n]) (adj n) st
        else if 3 ≤ path.length ∧ (∃ p ∈ path, p ∈ cands) then recordChainSeq (path ++ [n]) st
        else st
      shellGoSeq adj cands fuel path rest st'

/-- Reference shell detector with exact member-sequence dedup (spec §4.5). -/
def detectShellsBySeq (g : GraphData) (adj : String → List String) : List FraudRing :=
  let cands := shellCandidates g
  (g.nodes.foldl
    (fun st node =>
      if node.id ∈ cands then st
      else shellGoSeq adj cands (shellFuel g) [node.id] (adj node.id) st)
    { rings := [], recordedSeqs := [] }).rings

/-- `computeSuspicionScore` (§6): additive weights, capped at 100. -/
def computeSuspicionScore (patterns : List String) : Nat :=
  let score0 := 0
  let score1 := if "cycle" ∈ patterns then score0 + 50 else score0
  let score2 := if "fan_in" ∈ patterns then score1 + 30 else score1
  let score3 := if "fan_out" ∈ patterns then score2 + 30 else score2
  let score4 := if "shell" ∈ patterns then score3 + 25 else score3
  let score5 := if "high_velocity" ∈ patterns then score4 + 15 else score4
  min 100 score5

/-- The descriptive pattern string added per ring by the orchestrator. -/
def descriptivePattern (r : FraudRing) : String :=
  if r.type = "cycle" then "cycle_length_" ++ toString r.members.length
  else if r.type = "fan_in" then "fan_in_aggregation"
  else if r.type = "fan_out" then "fan_out_dispersal"
  else "shell_layering"

/-- `if (!node.patterns.includes(s)) node.patterns.push(s)`. -/
def pushIfAbsent (ps : List String) (s : String) : List String :=
  if s ∈ ps then ps else ps ++ [s]

/-- The three guarded pattern appends performed per (ring, member). -/
def addRingPatterns (ps : List String) (r : FraudRing) : List String :=
  let ps1 := pushIfAbsent ps r.type
  let ps2 := pushIfAbsent ps1 (descriptivePattern r)
  if r.type = "fan_in" ∨ r.type = "fan_out" then pushIfAbsent ps2 "high_velocity" else ps2

/-- One (ring, member) step of the marking loop: look the member up in the node
map; if present, update its patterns and add it to `flaggedNodeIds`. -/
def markMember (acc : List Node × List String) (r : FraudRing) (m : String) :
    List Node × List String :=
  if acc.1.any (fun n => n.id = m) then
    (acc.1.map (fun n => if n.id = m then { n with patterns := addRingPatterns n.patterns r } else n),
     setInsert acc.2 m)
  else acc

/-- Marking loop over one ring's members. -/
def markRing (acc : List Node × List String) (r : FraudRing) : List Node × List String :=
  r.members.foldl (fun a m => markMember a r m) acc

/-- The full marking loop of `analyzeGraph`, returning the updated nodes and
the flagged-id list in insertion order. -/
def markNodes (nodes : List Node) (rings : List FraudRing) : List Node × List String :=
  rings.foldl markRing (nodes, [])

/-- The scoring loop body: `node.riskScore = computeSuspicionScore(patterns);
node.val = riskScore > 50 ? 3 : 1`. -/
def scoreNode (n : Node) : Node :=
  let rs := computeSuspicionScore n.patterns
  { n with riskScore := rs, val := if 50 < rs then 3 else 1 }

/-- Building the suspicious-account list from the flagged ids. -/
def buildSuspicious (nodes : List Node) (allRings : List FraudRing)
    (flagged : List String) : List SuspiciousAccount :=
  flagged.foldl (fun acc i =>
    match nodes.find? (fun n => n.id = i) with
    | some n => acc ++ [{ account_id := n.id, suspicion_score := n.riskScore,
                          detected_patterns := n.patterns,
                          ring_id := (allRings.find? (fun r => i ∈ r.members)).map (fun r => r.id) }]
    | none => acc) []

/-- Descending order on suspicion score (`sort((a, b) => b.score - a.score)`). -/
def susDesc (a b : SuspiciousAccount) : Prop := b.suspicion_score ≤ a.suspicion_score

instance : DecidableRel susDesc := fun a b =>
  inferInstanceAs (Decidable (b.suspicion_score ≤ a.suspicion_score))

instance : IsTotal SuspiciousAccount susDesc :=
  ⟨fun a b => (Nat.le_total b.suspicion_score a.suspicion_score).elim Or.inl Or.inr⟩

instance : IsTrans SuspiciousAccount susDesc :=
  ⟨fun _ _ _ hab hbc => Nat.le_trans hbc hab⟩

/-- `analyzeGraph` (§7): the main orchestrator. -/
def analyzeGraph (transactions : List Transaction) : AnalysisResult :=
  let graph := buildGraph transactions
  let adj := buildAdjacency graph.links
  let byTarget := linksByTarget graph.links
  let bySource := linksBySource graph.links
  let cycles := detectCycles graph adj
  let smurfs := detectSmurfing graph byTarget bySource
  let shells := detectShells graph adj
  let allRings := cycles ++ smurfs ++ shells
  let marked := markNodes graph.nodes allRings
  let scored := marked.1.map scoreNode
  let suspicious := buildSuspicious scored allRings marked.2
  let sortedSus := suspicious.insertionSort susDesc
  { graph := { nodes := scored, links := graph.links },
    fraudRings := allRings,
    suspiciousAccounts := sortedSus,
    summary := { total_accounts := graph.nodes.length,
                 flagged_accounts := sortedSus.length,
                 rings_detected := allRings.length,
                 total_transactions := transactions.length } }

/-! ## Helper lemmas -/

lemma mem_setInsert {l : List String} {a x : String} :
    x ∈ setInsert l a ↔ x ∈ l ∨ x = a := by
  unfold setInsert
  split
  · constructor
    · exact Or.inl
    · rintro (h | rfl) <;> assumption
  · simp

lemma setInsert_nodup {l : List String} {a : String} (h : l.Nodup) :
    (setInsert l a).Nodup := by
  unfold setInsert
  split
  · exact h
  · next hna => simp [List.nodup_append, h, hna]

lemma subset_setInsert {l : List String} {a : String} : l ⊆ setInsert l a := by
  intro x hx; exact mem_setInsert.mpr (Or.inl hx)

lemma foldl_setInsert_nodup : ∀ (l acc : List String), acc.Nodup → (l.foldl setInsert acc).Nodup
  | [], _, h => h
  | _ :: t, acc, h => foldl_setInsert_nodup t _ (setInsert_nodup h)

lemma mem_foldl_setInsert : ∀ (l acc : List String) (x : String),
    x ∈ l.foldl setInsert acc ↔ x ∈ acc ∨ x ∈ l
  | [], acc, x => by simp
  | a :: t, acc, x => by
    rw [List.foldl_cons, mem_foldl_setInsert t (setInsert acc a) x, mem_setInsert]
    constructor
    · rintro ((h | rfl) | h)
      · exact Or.inl h
      · exact Or.inr (List.mem_cons_self _ _)
      · exact Or.inr (List.mem_cons_of_mem _ h)
    · rintro (h | h)
      · exact Or.inl (Or.inl h)
      · rcases List.mem_cons.mp h with rfl | h
        · exact Or.inl (Or.inr rfl)
        · exact Or.inr h

lemma uniqueFirst_nodup (l : List String) : (uniqueFirst l).Nodup :=
  foldl_setInsert_nodup l [] List.nodup_nil

lemma mem_uniqueFirst {l : List String} {x : String} : x ∈ uniqueFirst l ↔ x ∈ l := by
  unfold uniqueFirst
  rw [mem_foldl_setInsert]
  simp

lemma mem_pushIfAbsent {ps : List String} {s x : String} :
    x ∈ pushIfAbsent ps s ↔ x ∈ ps ∨ x = s := by
  unfold pushIfAbsent
  split
  · constructor
    · exact Or.inl
    · rintro (h | rfl) <;> assumption
  · simp

lemma subset_pushIfAbsent {ps : List String} {s : String} : ps ⊆ pushIfAbsent ps s :=
  fun _ hx => mem_pushIfAbsent.mpr (Or.inl hx)

lemma self_mem_pushIfAbsent {ps : List String} {s : String} : s ∈ pushIfAbsent ps s :=
  mem_pushIfAbsent.mpr (Or.inr rfl)

lemma pushIfAbsent_nodup {ps : List String} {s : String} (h : ps.Nodup) :
    (pushIfAbsent ps s).Nodup := by
  unfold pushIfAbsent
  split
  · exact h
  · next hna => simp [List.nodup_append, h, hna]

lemma subset_addRingPatterns {ps : List String} {r : FraudRing} :
    ps ⊆ addRingPatterns ps r := by
  unfold addRingPatterns
  intro x hx
  have h1 := subset_pushIfAbsent (s := r.type) hx
  have h2 := subset_pushIfAbsent (s := descriptivePattern r) h1
  split
  · exact subset_pushIfAbsent h2
  · exact h2

lemma type_mem_addRingPatterns {ps : List String} {r : FraudRing} :
    r.type ∈ addRingPatterns ps r := by
  unfold addRingPatterns
  have h1 : r.type ∈ pushIfAbsent ps r.type := self_mem_pushIfAbsent
  have h2 := subset_pushIfAbsent (s := descriptivePattern r) h1
  split
  · exact subset_pushIfAbsent h2
  · exact h2

lemma desc_mem_addRingPatterns {ps : List String} {r : FraudRing} :
    descriptivePattern r ∈ addRingPatterns ps r := by
  unfold addRingPatterns
  have h2 : descriptivePattern r ∈ pushIfAbsent (pushIfAbsent ps r.type) (descriptivePattern r) :=
    self_mem_pushIfAbsent
  split
  · exact subset_pushIfAbsent h2
  · exact h2

lemma hv_mem_addRingPatterns {ps : List String} {r : FraudRing}
    (h : r.type = "fan_in" ∨ r.type = "fan_out") :
    "high_velocity" ∈ addRingPatterns ps r := by
  unfold addRingPatterns
  split
  · exact self_mem_pushIfAbsent
  · exact absurd h (by assumption)

lemma addRingPatterns_nodup {ps : List String} {r : FraudRing} (h : ps.Nodup) :
    (addRingPatterns ps r).Nodup := by
  unfold addRingPatterns
  have h2 := pushIfAbsent_nodup (pushIfAbsent_nodup h (s := r.type)) (s := descriptivePattern r)
  split
  · exact pushIfAbsent_nodup h2
  · exact h2

/-! ## `buildGraph` invariants -/

/-- The id sequence of a node list. -/
def nodeIds (ns : List Node) : List String := ns.map fun n => n.id

lemma nodeIds_bumpOut (ns : List Node) (i : String) (a : Int) :
    nodeIds (bumpOut ns i a) = nodeIds ns := by
  unfold nodeIds bumpOut
  rw [List.map_map]
  refine List.map_congr_left fun n _ => ?_
  simp only [Function.comp_apply]
  split <;> rfl

lemma nodeIds_bumpIn (ns : List Node) (i : String) (a : Int) :
    nodeIds (bumpIn ns i a) = nodeIds ns := by
  unfold nodeIds bumpIn
  rw [List.map_map]
  refine List.map_congr_left fun n _ => ?_
  simp only [Function.comp_apply]
  split <;> rfl

lemma nodeIds_ensureNode_subset (ns : List Node) (i : String) :
    nodeIds ns ⊆ nodeIds (ensureNode ns i) := by
  unfold ensureNode
  split
  · exact fun x h => h
  · intro x h; unfold nodeIds at *; simpa using Or.inl (by simpa using h)

lemma self_mem_nodeIds_ensureNode (ns : List Node) (i : String) :
    i ∈ nodeIds (ensureNode ns i) := by
  unfold ensureNode
  split
  · next h =>
    rcases List.any_eq_true.mp h with ⟨n, hn, hid⟩
    have : n.id = i := of_decide_eq_true hid
    exact this ▸ List.mem_map.mpr ⟨n, hn, rfl⟩
  · unfold nodeIds; simp [freshNode]

/-- Fields of every node present before `ensureNode`/`bump` updates:
the degree/total updates never change `patterns`, `riskScore`, `flags`, `val`. -/
def initFields (n : Node) : Prop :=
  n.patterns = [] ∧ n.riskScore = 0 ∧ n.flags = [] ∧ n.val = 1

lemma initFields_bumpOut {ns : List Node} {i : String} {a : Int}
    (h : ∀ n ∈ ns, initFields n) : ∀ n ∈ bumpOut ns i a, initFields n := by
  intro n hn
  rcases List.mem_map.mp hn with ⟨n0, hn0, rfl⟩
  have := h n0 hn0
  unfold initFields at *
  split <;> simpa using this

lemma initFields_bumpIn {ns : List Node} {i : String} {a : Int}
    (h : ∀ n ∈ ns, initFields n) : ∀ n ∈ bumpIn ns i a, initFields n := by
  intro n hn
  rcases List.mem_map.mp hn with ⟨n0, hn0, rfl⟩
  have := h n0 hn0
  unfold initFields at *
  split <;> simpa using this

lemma initFields_ensureNode {ns : List Node} {i : String}
    (h : ∀ n ∈ ns, initFields n) : ∀ n ∈ ensureNode ns i, initFields n := by
  intro n hn
  unfold ensureNode at hn
  split at hn
  · exact h n hn
  · rcases List.mem_append.mp hn with h' | h'
    · exact h n h'
    · have : n = freshNode i := by simpa using h'
      subst this
      unfold initFields freshNode
      exact ⟨rfl, rfl, rfl, rfl⟩

/-- Invariant of `buildGraph`: all link endpoints name existing nodes, and all
nodes still carry the initial `patterns`/`riskScore`/`flags`/`val`. -/
def BuildInv (g : GraphData) : Prop :=
  (∀ l ∈ g.links, l.source ∈ nodeIds g.nodes ∧ l.target ∈ nodeIds g.nodes) ∧
  (∀ n ∈ g.nodes, initFields n)

lemma buildStep_inv {g : GraphData} {tx : Transaction} (h : BuildInv g) :
    BuildInv (buildStep g tx) := by
  obtain ⟨hl, hn⟩ := h
  unfold buildStep
  constructor
  · intro l hmem
    have hids : nodeIds g.nodes ⊆
        nodeIds (bumpIn (bumpOut (ensureNode (ensureNode g.nodes tx.sender_id) tx.receiver_id)
          tx.sender_id tx.amount) tx.receiver_id tx.amount) := by
      rw [nodeIds_bumpIn, nodeIds_bumpOut]
      exact fun x hx =>
        nodeIds_ensureNode_subset _ _ (nodeIds_ensureNode_subset _ _ hx)
    rcases List.mem_append.mp hmem with hold | hnew
    · exact ⟨hids (hl l hold).1, hids (hl l hold).2⟩
    · have : l = { source := tx.sender_id, target := tx.receiver_id, amount := tx.amount,
                   timestamp := tx.timestamp, transaction_id := tx.transaction_id } := by
        simpa using hnew
      subst this
      constructor
      · simp only []
        rw [nodeIds_bumpIn, nodeIds_bumpOut]
        exact nodeIds_ensureNode_subset _ _ (self_mem_nodeIds_ensureNode _ _)
      · simp only []
        rw [nodeIds_bumpIn, nodeIds_bumpOut]
        exact self_mem_nodeIds_ensureNode _ _
  · exact initFields_bumpIn (initFields_bumpOut
      (initFields_ensureNode (initFields_ensureNode hn)))

lemma buildGraph_inv (txs : List Transaction) : BuildInv (buildGraph txs) := by
  unfold buildGraph
  have : ∀ (l : List Transaction) (g : GraphData), BuildInv g → BuildInv (l.foldl buildStep g) := by
    intro l
    induction l with
    | nil => exact fun g h => h
    | cons a t ih => exact fun g h => ih _ (buildStep_inv h)
  exact this txs _ ⟨by simp, by simp⟩

/-! ## Cycle detector invariants -/

/-- A well-formed cycle ring relative to an adjacency function and an ambient
id property `S`: fixed type and score, 3-5 members tracing a simple directed
cycle, all members satisfying `S`. -/
def GoodCycleRing (adj : String → List String) (S : String → Prop) (r : FraudRing) : Prop :=
  r.type = "cycle" ∧ r.riskScore = 90 ∧
  3 ≤ r.members.length ∧ r.members.length ≤ 5 ∧ r.members.Nodup ∧
  List.Chain' (fun a b => b ∈ adj a) r.members ∧
  (∀ h l, r.members.head? = some h → r.members.getLast? = some l → h ∈ adj l) ∧
  (∀ m ∈ r.members, S m)

/-- Invariant of the cycle-search state: all emitted rings are well formed,
their signatures are pairwise distinct, and each signature is recorded. -/
def CycInv (adj : String → List String) (S : String → Prop) (st : CycState) : Prop :=
  (∀ r ∈ st.rings, GoodCycleRing adj S r) ∧
  (st.rings.map fun r => cycleSig r.members).Nodup ∧
  (∀ r ∈ st.rings, cycleSig r.members ∈ st.recorded)

lemma recordCycle_inv {adj : String → List String} {S : String → Prop} {st : CycState}
    {start : String} {depth : Nat} {path : List String}
    (hst : CycInv adj S st)
    (hlen3 : 3 ≤ path.length) (hlen5 : path.length ≤ 5) (hnd : path.Nodup)
    (hch : List.Chain' (fun a b => b ∈ adj a) path)
    (hcl : ∀ h l, path.head? = some h → path.getLast? = some l → h ∈ adj l)
    (hS : ∀ m ∈ path, S m) :
    CycInv adj S (recordCycle start depth path st) := by
  obtain ⟨hgood, hnodup, hrec⟩ := hst
  simp only [recordCycle]
  split
  · exact ⟨hgood, hnodup, hrec⟩
  · next hkey =>
    refine ⟨?_, ?_, ?_⟩
    · intro r hr
      rcases List.mem_append.mp hr with h | h
      · exact hgood r h
      · have : r = { id := "RING_" ++ pad3 (st.rings.length + 1), type := "cycle",
                     riskScore := 90, members := path,
                     patternDetails := "Circular fund routing: " ++
                       String.intercalate " → " path ++ " → " ++ start ++
                       " (length " ++ toString depth ++ ")" } := by simpa using h
        subst this
        exact ⟨rfl, rfl, hlen3, hlen5, hnd, hch, hcl, hS⟩
    · rw [List.map_append]
      rw [List.nodup_append]
      refine ⟨hnodup, by simp, ?_⟩
      intro x hx
      simp only [List.map_cons, List.map_nil, List.mem_singleton]
      intro hx2
      rcases List.mem_map.mp hx with ⟨r, hr, rfl⟩
      have hmem := hrec r hr
      rw [hx2] at hmem
      exact hkey hmem
    · intro r hr
      rcases List.mem_append.mp hr with h | h
      · exact List.mem_append.mpr (Or.inl (hrec r h))
      · have : r.members = path := by
          have : r = { id := "RING_" ++ pad3 (st.rings.length + 1), type := "cycle",
                       riskScore := 90, members := path,
                       patternDetails := "Circular fund routing: " ++
                         String.intercalate " → " path ++ " → " ++ start ++
                         " (length " ++ toString depth ++ ")" } := by simpa using h
          rw [this]
        rw [this]
        exact List.mem_append.mpr (Or.inr (by simp))

/-- Invariant of the `cycleGo` arguments: the path is a nonempty simple
adjacency chain starting at `start` with length `depth`, its members satisfy
`S`, and each pending neighbor is adjacent to the path's last node. -/
def CyclePathInv (adj : String → List String) (S : String → Prop) (start : String)
    (depth : Nat) (path neighbors : List String) : Prop :=
  path.head? = some start ∧ path.length = depth ∧ path.Nodup ∧
  List.Chain' (fun a b => b ∈ adj a) path ∧ (∀ m ∈ path, S m) ∧
  (∀ n ∈ neighbors, ∀ l, path.getLast? = some l → n ∈ adj l)

lemma cycleGo_inv (adj : String → List String) (S : String → Prop)
    (Hadj : ∀ a b, b ∈ adj a → S b) (start : String) :
    ∀ (fuel depth : Nat) (path neighbors : List String) (st : CycState),
      CycInv adj S st → CyclePathInv adj S start depth path neighbors →
      CycInv adj S (cycleGo adj start fuel depth path neighbors st) := by
  intro fuel
  induction fuel with
  | zero => intro depth path neighbors st hst _; simpa [cycleGo] using hst
  | succ fuel ih =>
    intro depth path neighbors st hst hpath
    obtain ⟨hhead, hlen, hnd, hch, hS, hadjn⟩ := hpath
    have hpathne : path ≠ [] := by
      intro h; rw [h] at hhead; simp at hhead
    obtain ⟨last, hlast⟩ : ∃ l, path.getLast? = some l := by
      cases hp : path.getLast? with
      | none => exact absurd (List.getLast?_eq_none_iff.mp hp) hpathne
      | some l => exact ⟨l, rfl⟩
    match neighbors with
    | [] => simpa [cycleGo] using hst
    | n :: rest =>
      rw [cycleGo]
      have hrest : CyclePathInv adj S start depth path rest :=
        ⟨hhead, hlen, hnd, hch, hS, fun m hm => hadjn m (List.mem_cons_of_mem _ hm)⟩
      split
      · next hcond =>
        obtain ⟨hns, h3, h5⟩ := hcond
        refine ih depth path rest _ ?_ hrest
        refine recordCycle_inv ⟨hst.1, hst.2.1, hst.2.2⟩ (hlen ▸ h3) (hlen ▸ h5) hnd hch ?_ hS
        intro h l hh hl
        have hhs : h = start := by rw [hhead] at hh; exact (Option.some_injective _ hh).symm
        subst hhs
        rw [← hns]
        exact hadjn n (List.mem_cons_self _ _) l hl
      · split
        · next hcond =>
          obtain ⟨hnp, hd5⟩ := hcond
          refine ih depth path rest _ ?_ hrest
          refine ih (depth + 1) (path ++ [n]) (adj n) st hst ?_
          refine ⟨?_, ?_, ?_, ?_, ?_, ?_⟩
          · rw [List.head?_append_of_ne_nil _ hpathne]; exact hhead
          · simp [hlen]
          · simp [List.nodup_append, hnd, hnp]
          · rw [List.chain'_append]
            refine ⟨hch, List.chain'_singleton _, ?_⟩
            intro x hx y hy
            have hyn : n = y := by simpa using hy
            have hx' : path.getLast? = some x := by simpa using hx
            rw [hlast] at hx'
            have hxl : last = x := Option.some_injective _ hx'
            rw [← hyn, ← hxl]
            exact hadjn n (List.mem_cons_self _ _) last hlast
          · intro m hm
            rcases List.mem_append.mp hm with h | h
            · exact hS m h
            · have : m = n := by simpa using h
              subst this
              exact Hadj last m (hadjn m (List.mem_cons_self _ _) last hlast)
          · intro m hm l hl
            have : l = n := by
              rw [List.getLast?_concat] at hl
              exact (Option.some_injective _ hl).symm
            subst this
            exact hm
        · exact ih depth path rest st hst hrest

/-- The full cycle-search state invariant for `detectCycles`. -/
lemma detectCycles_inv (g : GraphData) (adj : String → List String) (S : String → Prop)
    (Hadj : ∀ a b, b ∈ adj a → S b) (HS : ∀ n ∈ g.nodes, S n.id) :
    CycInv adj S (g.nodes.foldl
      (fun st node => cycleGo adj node.id (cycleFuel g) 1 [node.id] (adj node.id) st)
      { rings := [], recorded := [] }) := by
  have aux : ∀ (l : List Node), (∀ n ∈ l, S n.id) → ∀ st : CycState, CycInv adj S st →
      CycInv adj S (l.foldl
        (fun st node => cycleGo adj node.id (cycleFuel g) 1 [node.id] (adj node.id) st) st) := by
    intro l
    induction l with
    | nil => intro _ st hst; exact hst
    | cons a t iht =>
      intro hl st hst
      rw [List.foldl_cons]
      refine iht (fun n hn => hl n (List.mem_cons_of_mem _ hn)) _ ?_
      refine cycleGo_inv adj S Hadj a.id (cycleFuel g) 1 [a.id] (adj a.id) st hst ?_
      refine ⟨rfl, rfl, List.nodup_singleton _, List.chain'_singleton _, ?_, ?_⟩
      · intro m hm
        have : m = a.id := by simpa using hm
        subst this
        exact hl a (List.mem_cons_self _ _)
      · intro n hn l hl'
        have hle : a.id = l := by simpa using hl'
        rw [← hle]
        exact hn
  exact aux g.nodes HS _ ⟨by simp, by simp, by simp⟩

/-! ## Shell detector invariants -/

/-- A well-formed shell ring relative to an ambient id property `S`. -/
def GoodShellRing (S : String → Prop) (r : FraudRing) : Prop :=
  r.type = "shell" ∧ r.riskScore = 80 ∧ 4 ≤ r.members.length ∧ r.members.Nodup ∧
  (∀ m ∈ r.members, S m)

/-- Invariant of the shell-search state. -/
def ShellInv (S : String → Prop) (st : ShellState) : Prop :=
  ∀ r ∈ st.rings, GoodShellRing S r

lemma recordChain_inv {S : String → Prop} {st : ShellState} {fullChain : List String}
    (hst : ShellInv S st) (hlen : 4 ≤ fullChain.length) (hnd : fullChain.Nodup)
    (hS : ∀ m ∈ fullChain, S m) :
    ShellInv S (recordChain fullChain st) := by
  simp only [recordChain]
  split
  · exact hst
  · intro r hr
    rcases List.mem_append.mp hr with h | h
    · exact hst r h
    · have : r = { id := "SHELL_" ++ pad3 (st.rings.length + 1), type := "shell",
                   riskScore := 80, members := fullChain,
                   patternDetails := "Layered shell chain: " ++
                     String.intercalate " → " fullChain ++ " (" ++
                     toString (fullChain.length - 1) ++ " hops)" } := by simpa using h
      subst this
      exact ⟨rfl, rfl, hlen, hnd, hS⟩

lemma shellGo_inv (adj : String → List String) (S : String → Prop)
    (Hadj : ∀ a b, b ∈ adj a → S b) (cands : List String) :
    ∀ (fuel : Nat) (path neighbors : List String) (st : ShellState),
      ShellInv S st → path.Nodup → (∀ m ∈ path, S m) → (∀ n ∈ neighbors, S n) →
      ShellInv S (shellGo adj cands fuel path neighbors st) := by
  intro fuel
  induction fuel with
  | zero => intro path neighbors st hst _ _ _; simpa [shellGo] using hst
  | succ fuel ih =>
    intro path neighbors st hst hnd hSp hSn
    match neighbors with
    | [] => simpa [shellGo] using hst
    | n :: rest =>
      rw [shellGo]
      have hSrest : ∀ m ∈ rest, S m := fun m hm => hSn m (List.mem_cons_of_mem _ hm)
      have hSnn : S n := hSn n (List.mem_cons_self _ _)
      split
      · exact ih path rest st hst hnd hSp hSrest
      · next hnp =>
        split
        · refine ih path rest _ ?_ hnd hSp hSrest
          refine ih (path ++ [n]) (adj n) st hst ?_ ?_ ?_
          · simp [List.nodup_append, hnd, hnp]
          · intro m hm
            rcases List.mem_append.mp hm with h | h
            · exact hSp m h
            · have : m = n := by simpa using h
              subst this
              exact hSnn
          · exact fun b hb => Hadj n b hb
        · split
          · next hcond =>
            refine ih path rest _ ?_ hnd hSp hSrest
            refine recordChain_inv hst ?_ ?_ ?_
            · have := hcond.1
              simp only [List.length_append, List.length_singleton]
              omega
            · simp [List.nodup_append, hnd, hnp]
            · intro m hm
              rcases List.mem_append.mp hm with h | h
              · exact hSp m h
              · have : m = n := by simpa using h
                subst this
                exact hSnn
          · exact ih path rest st hst hnd hSp hSrest

/-- All rings produced by `detectShells` are well formed. -/
lemma detectShells_good (g : GraphData) (adj : String → List String) (S : String → Prop)
    (Hadj : ∀ a b, b ∈ adj a → S b) (HS : ∀ n ∈ g.nodes, S n.id) :
    ∀ r ∈ detectShells g adj, GoodShellRing S r := by
  unfold detectShells
  have aux : ∀ (l : List Node), (∀ n ∈ l, S n.id) → ∀ st : ShellState, ShellInv S st →
      ShellInv S (l.foldl
        (fun st node => if node.id ∈ shellCandidates g then st
          else shellGo adj (shellCandidates g) (shellFuel g) [node.id] (adj node.id) st) st) := by
    intro l
    induction l with
    | nil => intro _ st hst; exact hst
    | cons a t iht =>
      intro hl st hst
      rw [List.foldl_cons]
      refine iht (fun n hn => hl n (List.mem_cons_of_mem _ hn)) _ ?_
      split
      · exact hst
      · refine shellGo_inv adj S Hadj _ (shellFuel g) [a.id] (adj a.id) st hst
          (List.nodup_singleton _) ?_ (fun b hb => Hadj a.id b hb)
        intro m hm
        have : m = a.id := by simpa using hm
        subst this
        exact hl a (List.mem_cons_self _ _)
  exact aux g.nodes HS _ (by intro r hr; simp at hr)

/-! ## Smurfing detector lemmas -/

/-- The shape of any ring emitted while processing `node`. -/
def SmurfRing (byTarget bySource : String → List Link) (node : Node) (r : FraudRing) : Prop :=
  (r.type = "fan_in" ∧ r.riskScore = 85 ∧
    r.members = node.id :: uniqueFirst ((byTarget node.id).map fun l => l.source)) ∨
  (r.type = "fan_out" ∧ r.riskScore = 85 ∧
    r.members = node.id :: uniqueFirst ((bySource node.id).map fun l => l.target))

lemma fanInCheck_cases {byTarget : String → List Link} {rings : List FraudRing} {node : Node} :
    ∀ r ∈ fanInCheck byTarget rings node,
      r ∈ rings ∨ r = fanInRing rings.length node.id
        (uniqueFirst ((byTarget node.id).map fun l => l.source)) := by
  intro r hr
  simp only [fanInCheck] at hr
  split at hr
  · split at hr
    · split at hr
      · rcases List.mem_append.mp hr with h | h
        · exact Or.inl h
        · exact Or.inr (by simpa using h)
      · exact Or.inl hr
    · exact Or.inl hr
  · exact Or.inl hr

lemma fanOutCheck_cases {bySource : String → List Link} {rings : List FraudRing} {node : Node} :
    ∀ r ∈ fanOutCheck bySource rings node,
      r ∈ rings ∨ r = fanOutRing rings.length node.id
        (uniqueFirst ((bySource node.id).map fun l => l.target)) := by
  intro r hr
  simp only [fanOutCheck] at hr
  split at hr
  · split at hr
    · split at hr
      · rcases List.mem_append.mp hr with h | h
        · exact Or.inl h
        · exact Or.inr (by simpa using h)
      · exact Or.inl hr
    · exact Or.inl hr
  · exact Or.inl hr

lemma smurfStep_cases {byTarget bySource : String → List Link} {rings : List FraudRing}
    {node : Node} :
    ∀ r ∈ smurfStep byTarget bySource rings node,
      r ∈ rings ∨ SmurfRing byTarget bySource node r := by
  intro r hr
  unfold smurfStep at hr
  split at hr
  · exact Or.inl hr
  · rcases fanOutCheck_cases r hr with h | h
    · rcases fanInCheck_cases r h with h' | h'
      · exact Or.inl h'
      · exact Or.inr (Or.inl (by subst h'; exact ⟨rfl, rfl, rfl⟩))
    · exact Or.inr (Or.inr (by subst h; exact ⟨rfl, rfl, rfl⟩))

lemma fanInCheck_keeps {byTarget : String → List Link} {rings : List FraudRing} {node : Node} :
    ∀ r ∈ rings, r ∈ fanInCheck byTarget rings node := by
  intro r hr
  simp only [fanInCheck]
  split
  · split
    · split
      · exact List.mem_append.mpr (Or.inl hr)
      · exact hr
    · exact hr
  · exact hr

lemma fanOutCheck_keeps {bySource : String → List Link} {rings : List FraudRing} {node : Node} :
    ∀ r ∈ rings, r ∈ fanOutCheck bySource rings node := by
  intro r hr
  simp only [fanOutCheck]
  split
  · split
    · split
      · exact List.mem_append.mpr (Or.inl hr)
      · exact hr
    · exact hr
  · exact hr

lemma smurfStep_mono {byTarget bySource : String → List Link} {rings : List FraudRing}
    {node : Node} : ∀ r ∈ rings, r ∈ smurfStep byTarget bySource rings node := by
  intro r hr
  unfold smurfStep
  split
  · exact hr
  · exact fanOutCheck_keeps r (fanInCheck_keeps r hr)

/-- Under the fan-in conditions the fan-in block emits the fan-in ring. -/
lemma fanInCheck_pos {byTarget : String → List Link} {rings : List FraudRing} {node : Node}
    (hin : 10 ≤ node.inDegree) (hout : node.outDegree ≤ 2)
    (hs : 10 ≤ (uniqueFirst ((byTarget node.id).map fun l => l.source)).length)
    (hv : hasHighVelocity ((byTarget node.id).map fun l => l.timestamp) 10 72 = true) :
    fanInCheck byTarget rings node =
      rings ++ [fanInRing rings.length node.id
        (uniqueFirst ((byTarget node.id).map fun l => l.source))] := by
  simp only [fanInCheck]
  rw [if_pos ⟨hin, hout⟩, if_pos hs, if_pos hv]

/-- The smurfing step emits the fan-in ring when all fan-in conditions hold. -/
lemma smurfStep_fanin_mem {byTarget bySource : String → List Link} {rings : List FraudRing}
    {node : Node}
    (hin : 10 ≤ node.inDegree) (hout : node.outDegree ≤ 2)
    (hs : 10 ≤ (uniqueFirst ((byTarget node.id).map fun l => l.source)).length)
    (hv : hasHighVelocity ((byTarget node.id).map fun l => l.timestamp) 10 72 = true) :
    fanInRing rings.length node.id (uniqueFirst ((byTarget node.id).map fun l => l.source)) ∈
      smurfStep byTarget bySource rings node := by
  unfold smurfStep
  rw [if_neg (by omega)]
  refine fanOutCheck_keeps _ ?_
  rw [fanInCheck_pos hin hout hs hv]
  exact List.mem_append.mpr (Or.inr (by simp))

/-- Every ring of `detectSmurfing` has the fan-in or fan-out shape for some
node of the graph. -/
lemma detectSmurfing_shape (g : GraphData) (byTarget bySource : String → List Link) :
    ∀ r ∈ detectSmurfing g byTarget bySource, ∃ n ∈ g.nodes, SmurfRing byTarget bySource n r := by
  unfold detectSmurfing
  have aux : ∀ (l : List Node), (∀ n ∈ l, n ∈ g.nodes) → ∀ acc : List FraudRing,
      (∀ r ∈ acc, ∃ n ∈ g.nodes, SmurfRing byTarget bySource n r) →
      ∀ r ∈ l.foldl (smurfStep byTarget bySource) acc,
        ∃ n ∈ g.nodes, SmurfRing byTarget bySource n r := by
    intro l
    induction l with
    | nil => intro _ acc hacc; exact hacc
    | cons a t iht =>
      intro hl acc hacc
      rw [List.foldl_cons]
      refine iht (fun n hn => hl n (List.mem_cons_of_mem _ hn)) _ ?_
      intro r hr
      rcases smurfStep_cases r hr with h | h
      · exact hacc r h
      · exact ⟨a, hl a (List.mem_cons_self _ _), h⟩
  exact aux g.nodes (fun n hn => hn) [] (by intro r hr; simp at hr)

/-- Completeness of the fan-in side of `detectSmurfing` (claim C5's shape). -/
lemma detectSmurfing_fanin_aux (g : GraphData) (byTarget bySource : String → List Link)
    (n : Node) (hn : n ∈ g.nodes)
    (hin : 10 ≤ n.inDegree) (hout : n.outDegree ≤ 2)
    (hs : 10 ≤ (uniqueFirst ((byTarget n.id).map fun l => l.source)).length)
    (hv : hasHighVelocity ((byTarget n.id).map fun l => l.timestamp) 10 72 = true) :
    ∃ r ∈ detectSmurfing g byTarget bySource,
      r.type = "fan_in" ∧ r.riskScore = 85 ∧
      r.members = n.id :: uniqueFirst ((byTarget n.id).map fun l => l.source) := by
  unfold detectSmurfing
  have mono : ∀ (l : List Node) (acc : List FraudRing) (r : FraudRing), r ∈ acc →
      r ∈ l.foldl (smurfStep byTarget bySource) acc := by
    intro l
    induction l with
    | nil => intro acc r hr; exact hr
    | cons a t iht =>
      intro acc r hr
      rw [List.foldl_cons]
      exact iht _ r (smurfStep_mono r hr)
  have aux : ∀ (l : List Node), n ∈ l → ∀ acc : List FraudRing,
      ∃ r ∈ l.foldl (smurfStep byTarget bySource) acc,
        r.type = "fan_in" ∧ r.riskScore = 85 ∧
        r.members = n.id :: uniqueFirst ((byTarget n.id).map fun l => l.source) := by
    intro l
    induction l with
    | nil => intro h; simp at h
    | cons a t iht =>
      intro hmem acc
      rcases List.mem_cons.mp hmem with rfl | hmem'
      · rw [List.foldl_cons]
        exact ⟨fanInRing acc.length n.id (uniqueFirst ((byTarget n.id).map fun l => l.source)),
          mono t _ _ (smurfStep_fanin_mem hin hout hs hv),
          by simp [fanInRing], by simp [fanInRing], by simp [fanInRing]⟩
      · rw [List.foldl_cons]
        exact iht hmem' _
  exact aux g.nodes hn []

/-! ## Marking-loop lemmas -/

lemma markMember_map_eq {α : Type} (f : Node → α)
    (hf : ∀ n r, f { n with patterns := addRingPatterns n.patterns r } = f n)
    (acc : List Node × List String) (r : FraudRing) (m : String) :
    (markMember acc r m).1.map f = acc.1.map f := by
  unfold markMember
  split
  · simp only
    rw [List.map_map]
    refine List.map_congr_left fun n _ => ?_
    simp only [Function.comp_apply]
    split
    · exact hf n r
    · rfl
  · rfl

lemma foldl_markMember_map_eq {α : Type} (f : Node → α)
    (hf : ∀ n r, f { n with patterns := addRingPatterns n.patterns r } = f n)
    (r : FraudRing) :
    ∀ (ms : List String) (acc : List Node × List String),
      ((ms.foldl (fun a m => markMember a r m) acc)).1.map f = acc.1.map f := by
  intro ms
  induction ms with
  | nil => intro acc; rfl
  | cons a t ih =>
    intro acc
    rw [List.foldl_cons, ih, markMember_map_eq f hf]

lemma foldl_markRing_map_eq {α : Type} (f : Node → α)
    (hf : ∀ n r, f { n with patterns := addRingPatterns n.patterns r } = f n) :
    ∀ (rs : List FraudRing) (acc : List Node × List String),
      ((rs.foldl markRing acc)).1.map f = acc.1.map f := by
  intro rs
  induction rs with
  | nil => intro acc; rfl
  | cons a t ih =>
    intro acc
    rw [List.foldl_cons, ih]
    exact foldl_markMember_map_eq f hf a a.members acc

lemma markNodes_ids (nodes : List Node) (rings : List FraudRing) :
    (markNodes nodes rings).1.map (fun n => n.id) = nodes.map fun n => n.id :=
  foldl_markRing_map_eq (fun n => n.id) (fun _ _ => rfl) rings (nodes, [])

/-- Marking never changes any field other than `patterns`. -/
lemma markNodes_skeleton (nodes : List Node) (rings : List FraudRing) :
    (markNodes nodes rings).1.map
        (fun n => (n.id, n.riskScore, n.flags, n.inDegree, n.outDegree, n.totalIn, n.totalOut, n.val))
      = nodes.map
        (fun n => (n.id, n.riskScore, n.flags, n.inDegree, n.outDegree, n.totalIn, n.totalOut, n.val)) :=
  foldl_markRing_map_eq
    (fun n => (n.id, n.riskScore, n.flags, n.inDegree, n.outDegree, n.totalIn, n.totalOut, n.val))
    (fun _ _ => rfl) rings (nodes, [])

lemma markMember_pres {Q : Node → Prop} {acc : List Node × List String}
    {r : FraudRing} {m : String}
    (hQ : ∀ n, n.id = m → Q n → Q { n with patterns := addRingPatterns n.patterns r })
    (h : ∀ n ∈ acc.1, Q n) : ∀ n ∈ (markMember acc r m).1, Q n := by
  intro n hn
  unfold markMember at hn
  split at hn
  · simp only at hn
    rcases List.mem_map.mp hn with ⟨n0, hn0, rfl⟩
    by_cases hm : n0.id = m
    · simpa [hm] using hQ n0 hm (h n0 hn0)
    · simpa [hm] using h n0 hn0
  · exact h n hn

lemma foldl_markMember_pres {Q : Node → Prop} {r : FraudRing}
    (hQ : ∀ n m, m ∈ r.members → n.id = m → Q n → Q { n with patterns := addRingPatterns n.patterns r }) :
    ∀ (ms : List String), (∀ m ∈ ms, m ∈ r.members) →
      ∀ acc : List Node × List String, (∀ n ∈ acc.1, Q n) →
      ∀ n ∈ (ms.foldl (fun a m => markMember a r m) acc).1, Q n := by
  intro ms
  induction ms with
  | nil => intro _ acc h; exact h
  | cons a t ih =>
    intro hms acc h
    rw [List.foldl_cons]
    refine ih (fun m hm => hms m (List.mem_cons_of_mem _ hm)) _ ?_
    exact markMember_pres (fun n hn => hQ n a (hms a (List.mem_cons_self _ _)) hn) h

lemma foldl_markRing_pres {Q : Node → Prop} {rings : List FraudRing}
    (hQ : ∀ n r m, r ∈ rings → m ∈ r.members → n.id = m → Q n →
      Q { n with patterns := addRingPatterns n.patterns r }) :
    ∀ (rs : List FraudRing), (∀ r ∈ rs, r ∈ rings) →
      ∀ acc : List Node × List String, (∀ n ∈ acc.1, Q n) →
      ∀ n ∈ (rs.foldl markRing acc).1, Q n := by
  intro rs
  induction rs with
  | nil => intro _ acc h; exact h
  | cons a t ih =>
    intro hrs acc h
    rw [List.foldl_cons]
    refine ih (fun r hr => hrs r (List.mem_cons_of_mem _ hr)) _ ?_
    exact foldl_markMember_pres
      (fun n m hm hn => hQ n a m (hrs a (List.mem_cons_self _ _)) hm hn)
      a.members (fun m hm => hm) acc h

/-- The pattern memberships established by one `markMember` step at an id
present in the node list. -/
def MarkedWith (r : FraudRing) (m : String) (n : Node) : Prop :=
  n.id = m → r.type ∈ n.patterns ∧ descriptivePattern r ∈ n.patterns ∧
    (r.type = "fan_in" ∨ r.type = "fan_out" → "high_velocity" ∈ n.patterns)

lemma markedWith_mono {r : FraudRing} {m : String} :
    ∀ (n : Node) (r' : FraudRing), MarkedWith r m n →
      MarkedWith r m { n with patterns := addRingPatterns n.patterns r' } := by
  intro n r' h hid
  obtain ⟨h1, h2, h3⟩ := h hid
  exact ⟨subset_addRingPatterns h1, subset_addRingPatterns h2,
    fun hty => subset_addRingPatterns (h3 hty)⟩

lemma markMember_establish {acc : List Node × List String} {r : FraudRing} {m : String}
    (hmem : m ∈ acc.1.map fun n => n.id) :
    ∀ n ∈ (markMember acc r m).1, MarkedWith r m n := by
  intro n hn
  unfold markMember at hn
  rw [if_pos] at hn
  · simp only at hn
    rcases List.mem_map.mp hn with ⟨n0, hn0, rfl⟩
    by_cases hm : n0.id = m
    · intro _
      simp only [hm, if_pos rfl] at *
      rw [if_pos hm]
      exact ⟨type_mem_addRingPatterns, desc_mem_addRingPatterns,
        fun hty => hv_mem_addRingPatterns hty⟩
    · rw [if_neg hm]
      intro hid
      exact absurd hid hm
  · rcases List.mem_map.mp hmem with ⟨n0, hn0, hid⟩
    exact List.any_eq_true.mpr ⟨n0, hn0, decide_eq_true hid⟩

/-- Completeness of the marking loop: every member of every ring (present in
the node list) ends up with the ring's type, its descriptive variant, and
`high_velocity` for smurfing rings. -/
lemma markNodes_complete (nodes : List Node) (rings : List FraudRing)
    (r0 : FraudRing) (hr0 : r0 ∈ rings) (m0 : String) (hm0 : m0 ∈ r0.members)
    (hid0 : m0 ∈ nodes.map fun n => n.id) :
    ∀ n ∈ (markNodes nodes rings).1, MarkedWith r0 m0 n := by
  obtain ⟨l1, l2, rfl⟩ := List.append_of_mem hr0
  unfold markNodes
  rw [List.foldl_append, List.foldl_cons]
  have hids1 : ((l1.foldl markRing (nodes, [])).1.map fun n => n.id) = nodes.map fun n => n.id :=
    foldl_markRing_map_eq (fun n => n.id) (fun _ _ => rfl) l1 (nodes, [])
  refine foldl_markRing_pres (Q := MarkedWith r0 m0)
    (fun n r m _ _ _ h => markedWith_mono n r h) l2 (fun r hr => hr) _ ?_
  obtain ⟨ms1, ms2, hms⟩ := List.append_of_mem hm0
  show ∀ n ∈ (r0.members.foldl (fun a m => markMember a r0 m) (l1.foldl markRing (nodes, []))).1,
    MarkedWith r0 m0 n
  rw [hms, List.foldl_append, List.foldl_cons]
  refine foldl_markMember_pres (Q := MarkedWith r0 m0)
    (fun n m _ _ h => markedWith_mono n r0 h) ms2
    (fun m hm => by rw [hms]; exact List.mem_append.mpr (Or.inr (List.mem_cons_of_mem _ hm))) _ ?_
  refine markMember_establish ?_
  rw [foldl_markMember_map_eq (fun n => n.id) (fun _ _ => rfl), hids1]
  exact hid0

/-! ## Flagged-id lemmas -/

lemma markMember_flag_mono {acc : List Node × List String} {r : FraudRing} {m : String} :
    acc.2 ⊆ (markMember acc r m).2 := by
  unfold markMember
  split
  · exact subset_setInsert
  · exact fun x h => h

lemma markMember_flag_cases {acc : List Node × List String} {r : FraudRing} {m : String} :
    ∀ x ∈ (markMember acc r m).2, x ∈ acc.2 ∨ x = m := by
  intro x hx
  unfold markMember at hx
  split at hx
  · exact mem_setInsert.mp hx
  · exact Or.inl hx

lemma markMember_flag_establish {acc : List Node × List String} {r : FraudRing} {m : String}
    (hmem : m ∈ acc.1.map fun n => n.id) : m ∈ (markMember acc r m).2 := by
  unfold markMember
  rw [if_pos]
  · exact mem_setInsert.mpr (Or.inr rfl)
  · rcases List.mem_map.mp hmem with ⟨n0, hn0, hid⟩
    exact List.any_eq_true.mpr ⟨n0, hn0, decide_eq_true hid⟩

lemma markMember_flag_nodup {acc : List Node × List String} {r : FraudRing} {m : String}
    (h : acc.2.Nodup) : (markMember acc r m).2.Nodup := by
  unfold markMember
  split
  · exact setInsert_nodup h
  · exact h

lemma foldl_markMember_flag_mono (r : FraudRing) :
    ∀ (ms : List String) (acc : List Node × List String),
      acc.2 ⊆ (ms.foldl (fun a m => markMember a r m) acc).2 := by
  intro ms
  induction ms with
  | nil => intro acc; exact fun x h => h
  | cons a t ih =>
    intro acc
    rw [List.foldl_cons]
    exact fun x hx => ih (markMember acc r a) (markMember_flag_mono hx)

lemma foldl_markRing_flag_mono :
    ∀ (rs : List FraudRing) (acc : List Node × List String),
      acc.2 ⊆ (rs.foldl markRing acc).2 := by
  intro rs
  induction rs with
  | nil => intro acc; exact fun x h => h
  | cons a t ih =>
    intro acc
    rw [List.foldl_cons]
    exact fun x hx => ih (markRing acc a) (foldl_markMember_flag_mono a a.members acc hx)

lemma markRing_flag_cases {r : FraudRing} :
    ∀ (acc : List Node × List String) (x : String), x ∈ (markRing acc r).2 →
      x ∈ acc.2 ∨ x ∈ r.members := by
  have aux : ∀ (ms : List String), (∀ m ∈ ms, m ∈ r.members) →
      ∀ (acc : List Node × List String) (x : String),
        x ∈ (ms.foldl (fun a m => markMember a r m) acc).2 → x ∈ acc.2 ∨ x ∈ r.members := by
    intro ms
    induction ms with
    | nil => intro _ acc x hx; exact Or.inl hx
    | cons a t ih =>
      intro hms acc x hx
      rw [List.foldl_cons] at hx
      rcases ih (fun m hm => hms m (List.mem_cons_of_mem _ hm)) _ x hx with h | h
      · rcases markMember_flag_cases x h with h' | h'
        · exact Or.inl h'
        · exact Or.inr (h' ▸ hms a (List.mem_cons_self _ _))
      · exact Or.inr h
  exact fun acc x hx => aux r.members (fun m hm => hm) acc x hx

lemma markNodes_flag_sound (nodes : List Node) (rings : List FraudRing) :
    ∀ x ∈ (markNodes nodes rings).2, ∃ r ∈ rings, x ∈ r.members := by
  have aux : ∀ (rs : List FraudRing), (∀ r ∈ rs, r ∈ rings) →
      ∀ acc : List Node × List String,
        (∀ x ∈ acc.2, ∃ r ∈ rings, x ∈ r.members) →
        ∀ x ∈ (rs.foldl markRing acc).2, ∃ r ∈ rings, x ∈ r.members := by
    intro rs
    induction rs with
    | nil => intro _ acc hacc; exact hacc
    | cons a t ih =>
      intro hrs acc hacc
      rw [List.foldl_cons]
      refine ih (fun r hr => hrs r (List.mem_cons_of_mem _ hr)) _ ?_
      intro x hx
      rcases markRing_flag_cases acc x hx with h | h
      · exact hacc x h
      · exact ⟨a, hrs a (List.mem_cons_self _ _), h⟩
  exact aux rings (fun r hr => hr) (nodes, []) (by intro x hx; simp at hx)

lemma markNodes_flag_complete (nodes : List Node) (rings : List FraudRing)
    (r0 : FraudRing) (hr0 : r0 ∈ rings) (m0 : String) (hm0 : m0 ∈ r0.members)
    (hid0 : m0 ∈ nodes.map fun n => n.id) :
    m0 ∈ (markNodes nodes rings).2 := by
  obtain ⟨l1, l2, rfl⟩ := List.append_of_mem hr0
  unfold markNodes
  rw [List.foldl_append, List.foldl_cons]
  refine foldl_markRing_flag_mono l2 _ ?_
  obtain ⟨ms1, ms2, hms⟩ := List.append_of_mem hm0
  show m0 ∈ (r0.members.foldl (fun a m => markMember a r0 m) (l1.foldl markRing (nodes, []))).2
  rw [hms, List.foldl_append, List.foldl_cons]
  refine foldl_markMember_flag_mono r0 ms2 _ ?_
  refine markMember_flag_establish ?_
  rw [foldl_markMember_map_eq (fun n => n.id) (fun _ _ => rfl),
    foldl_markRing_map_eq (fun n => n.id) (fun _ _ => rfl)]
  exact hid0

lemma markNodes_flag_nodup (nodes : List Node) (rings : List FraudRing) :
    (markNodes nodes rings).2.Nodup := by
  have aux1 : ∀ (ms : List String) (r : FraudRing) (acc : List Node × List String),
      acc.2.Nodup → (ms.foldl (fun a m => markMember a r m) acc).2.Nodup := by
    intro ms r
    induction ms with
    | nil => intro acc h; exact h
    | cons a t ih =>
      intro acc h
      rw [List.foldl_cons]
      exact ih _ (markMember_flag_nodup h)
  have aux : ∀ (rs : List FraudRing) (acc : List Node × List String),
      acc.2.Nodup → (rs.foldl markRing acc).2.Nodup := by
    intro rs
    induction rs with
    | nil => intro acc h; exact h
    | cons a t ih =>
      intro acc h
      rw [List.foldl_cons]
      exact ih _ (aux1 a.members a acc h)
  exact aux rings (nodes, []) List.nodup_nil

/-- Nodes flagged by no ring keep their initial (empty) pattern list. -/
lemma markNodes_unflagged (nodes : List Node) (rings : List FraudRing)
    (hinit : ∀ n ∈ nodes, n.patterns = []) :
    ∀ n ∈ (markNodes nodes rings).1, (∀ r ∈ rings, n.id ∉ r.members) → n.patterns = [] := by
  refine foldl_markRing_pres
    (Q := fun n => (∀ r ∈ rings, n.id ∉ r.members) → n.patterns = [])
    ?_ rings (fun r hr => hr) (nodes, []) ?_
  · intro n r m hr hm hnm _ hnot
    exact absurd (hnm ▸ hm) (hnot r hr)
  · intro n hn _
    exact hinit n hn

/-- Marking preserves pattern-list distinctness. -/
lemma markNodes_patterns_nodup (nodes : List Node) (rings : List FraudRing)
    (hinit : ∀ n ∈ nodes, n.patterns.Nodup) :
    ∀ n ∈ (markNodes nodes rings).1, n.patterns.Nodup := by
  refine foldl_markRing_pres (Q := fun n => n.patterns.Nodup)
    ?_ rings (fun r hr => hr) (nodes, []) hinit
  intro n r m _ _ _ h
  exact addRingPatterns_nodup h

/-! ## Pipeline gluing lemmas -/

lemma mem_buildAdjacency {links : List Link} {a b : String} (h : b ∈ buildAdjacency links a) :
    ∃ l ∈ links, l.source = a ∧ l.target = b := by
  unfold buildAdjacency at h
  rcases List.mem_map.mp h with ⟨l, hl, rfl⟩
  have hf := List.mem_filter.mp hl
  exact ⟨l, hf.1, of_decide_eq_true hf.2, rfl⟩

lemma mem_linksByTarget {links : List Link} {t : String} {l : Link}
    (h : l ∈ linksByTarget links t) : l ∈ links ∧ l.target = t := by
  unfold linksByTarget at h
  have hf := List.mem_filter.mp h
  exact ⟨hf.1, of_decide_eq_true hf.2⟩

lemma mem_linksBySource {links : List Link} {s : String} {l : Link}
    (h : l ∈ linksBySource links s) : l ∈ links ∧ l.source = s := by
  unfold linksBySource at h
  have hf := List.mem_filter.mp h
  exact ⟨hf.1, of_decide_eq_true hf.2⟩

lemma self_mem_nodeIds {ns : List Node} {n : Node} (h : n ∈ ns) : n.id ∈ nodeIds ns :=
  List.mem_map.mpr ⟨n, h, rfl⟩

lemma detectCycles_members_in (g : GraphData)
    (hlinks : ∀ l ∈ g.links, l.source ∈ nodeIds g.nodes ∧ l.target ∈ nodeIds g.nodes) :
    ∀ r ∈ detectCycles g (buildAdjacency g.links), ∀ m ∈ r.members, m ∈ nodeIds g.nodes := by
  have h := detectCycles_inv g (buildAdjacency g.links) (fun s => s ∈ nodeIds g.nodes)
    (fun a b hb => by
      rcases mem_buildAdjacency hb with ⟨l, hl, _, rfl⟩
      exact (hlinks l hl).2)
    (fun n hn => self_mem_nodeIds hn)
  intro r hr
  exact (h.1 r hr).2.2.2.2.2.2.2

lemma detectShells_members_in (g : GraphData)
    (hlinks : ∀ l ∈ g.links, l.source ∈ nodeIds g.nodes ∧ l.target ∈ nodeIds g.nodes) :
    ∀ r ∈ detectShells g (buildAdjacency g.links), ∀ m ∈ r.members, m ∈ nodeIds g.nodes := by
  have h := detectShells_good g (buildAdjacency g.links) (fun s => s ∈ nodeIds g.nodes)
    (fun a b hb => by
      rcases mem_buildAdjacency hb with ⟨l, hl, _, rfl⟩
      exact (hlinks l hl).2)
    (fun n hn => self_mem_nodeIds hn)
  intro r hr
  exact (h r hr).2.2.2.2

lemma detectSmurfing_members_in (g : GraphData)
    (hlinks : ∀ l ∈ g.links, l.source ∈ nodeIds g.nodes ∧ l.target ∈ nodeIds g.nodes) :
    ∀ r ∈ detectSmurfing g (linksByTarget g.links) (linksBySource g.links),
      ∀ m ∈ r.members, m ∈ nodeIds g.nodes := by
  intro r hr m hm
  rcases detectSmurfing_shape g _ _ r hr with ⟨n, hn, hshape⟩
  rcases hshape with ⟨_, _, hmembers⟩ | ⟨_, _, hmembers⟩
  · rw [hmembers] at hm
    rcases List.mem_cons.mp hm with rfl | hm'
    · exact self_mem_nodeIds hn
    · have := mem_uniqueFirst.mp hm'
      rcases List.mem_map.mp this with ⟨l, hl, rfl⟩
      exact (hlinks l (mem_linksByTarget hl).1).1
  · rw [hmembers] at hm
    rcases List.mem_cons.mp hm with rfl | hm'
    · exact self_mem_nodeIds hn
    · have := mem_uniqueFirst.mp hm'
      rcases List.mem_map.mp this with ⟨l, hl, rfl⟩
      exact (hlinks l (mem_linksBySource hl).1).2

/-- The detector output assembled by `analyzeGraph`. -/
lemma analyzeGraph_fraudRings (txs : List Transaction) :
    (analyzeGraph txs).fraudRings =
      detectCycles (buildGraph txs) (buildAdjacency (buildGraph txs).links) ++
      detectSmurfing (buildGraph txs) (linksByTarget (buildGraph txs).links)
        (linksBySource (buildGraph txs).links) ++
      detectShells (buildGraph txs) (buildAdjacency (buildGraph txs).links) := rfl

lemma analyzeGraph_nodes (txs : List Transaction) :
    (analyzeGraph txs).graph.nodes =
      ((markNodes (buildGraph txs).nodes (analyzeGraph txs).fraudRings).1).map scoreNode := rfl

lemma analyzeGraph_sus (txs : List Transaction) :
    (analyzeGraph txs).suspiciousAccounts =
      (buildSuspicious ((markNodes (buildGraph txs).nodes (analyzeGraph txs).fraudRings).1.map scoreNode)
        ((analyzeGraph txs).fraudRings)
        ((markNodes (buildGraph txs).nodes (analyzeGraph txs).fraudRings).2)).insertionSort susDesc := rfl

/-- Every member of every ring assembled by `analyzeGraph` names a node of the
built graph. -/
lemma analyzeGraph_members_in (txs : List Transaction) :
    ∀ r ∈ (analyzeGraph txs).fraudRings, ∀ m ∈ r.members,
      m ∈ nodeIds (buildGraph txs).nodes := by
  have hinv := buildGraph_inv txs
  intro r hr
  rw [analyzeGraph_fraudRings] at hr
  rcases List.mem_append.mp hr with hr' | hr'
  · rcases List.mem_append.mp hr' with hc | hs
    · exact detectCycles_members_in _ hinv.1 r hc
    · exact detectSmurfing_members_in _ hinv.1 r hs
  · exact detectShells_members_in _ hinv.1 r hr'

/-! ## Scoring lemmas -/

lemma computeSuspicionScore_le (ps : List String) : computeSuspicionScore ps ≤ 100 := by
  unfold computeSuspicionScore
  exact Nat.min_le_left _ _

lemma computeSuspicionScore_eq (ps : List String) :
    computeSuspicionScore ps = min 100
      ((if "cycle" ∈ ps then 50 else 0) + (if "fan_in" ∈ ps then 30 else 0) +
       (if "fan_out" ∈ ps then 30 else 0) + (if "shell" ∈ ps then 25 else 0) +
       (if "high_velocity" ∈ ps then 15 else 0)) := by
  unfold computeSuspicionScore
  split_ifs <;> rfl

lemma scoreNode_fields (n : Node) :
    (scoreNode n).riskScore = computeSuspicionScore n.patterns ∧
    (scoreNode n).patterns = n.patterns ∧ (scoreNode n).id = n.id ∧
    (scoreNode n).inDegree = n.inDegree ∧ (scoreNode n).outDegree = n.outDegree ∧
    (scoreNode n).totalIn = n.totalIn ∧ (scoreNode n).totalOut = n.totalOut ∧
    (scoreNode n).flags = n.flags ∧
    (scoreNode n).val = if 50 < computeSuspicionScore n.patterns then 3 else 1 :=
  ⟨rfl, rfl, rfl, rfl, rfl, rfl, rfl, rfl, rfl⟩

/-! ## Suspicious-list lemmas -/

lemma buildSuspicious_accounts (nodes : List Node) (rings : List FraudRing) :
    ∀ (fl : List String), (∀ i ∈ fl, i ∈ nodes.map fun n => n.id) →
      ∀ acc : List SuspiciousAccount,
        ((fl.foldl (fun acc i =>
          match nodes.find? (fun n => n.id = i) with
          | some n => acc ++ [{ account_id := n.id, suspicion_score := n.riskScore,
                                detected_patterns := n.patterns,
                                ring_id := (rings.find? (fun r => i ∈ r.members)).map fun r => r.id }]
          | none => acc) acc).map fun a => a.account_id) = (acc.map fun a => a.account_id) ++ fl := by
  intro fl
  induction fl with
  | nil => intro _ acc; simp
  | cons i t ih =>
    intro hfl acc
    rw [List.foldl_cons]
    have hi : i ∈ nodes.map fun n => n.id := hfl i (List.mem_cons_self _ _)
    obtain ⟨nf, hfind, hid⟩ : ∃ nf, nodes.find? (fun n => decide (n.id = i)) = some nf ∧ nf.id = i := by
      cases hcase : nodes.find? (fun n => decide (n.id = i)) with
      | none =>
        exfalso
        rcases List.mem_map.mp hi with ⟨n0, hn0, hid0⟩
        have := List.find?_eq_none.mp hcase n0 hn0
        exact this (decide_eq_true hid0)
      | some nf =>
        have hp := List.find?_some hcase
        exact ⟨nf, rfl, of_decide_eq_true hp⟩
    rw [hfind]
    rw [ih (fun j hj => hfl j (List.mem_cons_of_mem _ hj))]
    simp [hid]

lemma buildSuspicious_map_account (nodes : List Node) (rings : List FraudRing)
    (fl : List String) (hfl : ∀ i ∈ fl, i ∈ nodes.map fun n => n.id) :
    (buildSuspicious nodes rings fl).map (fun a => a.account_id) = fl := by
  have := buildSuspicious_accounts nodes rings fl hfl []
  simpa [buildSuspicious] using this

lemma buildSuspicious_from_node (nodes : List Node) (rings : List FraudRing) :
    ∀ (fl : List String) (acc : List SuspiciousAccount),
      (∀ a ∈ acc, ∃ n ∈ nodes, a.suspicion_score = n.riskScore) →
      ∀ a ∈ (fl.foldl (fun acc i =>
          match nodes.find? (fun n => n.id = i) with
          | some n => acc ++ [{ account_id := n.id, suspicion_score := n.riskScore,
                                detected_patterns := n.patterns,
                                ring_id := (rings.find? (fun r => i ∈ r.members)).map fun r => r.id }]
          | none => acc) acc),
        ∃ n ∈ nodes, a.suspicion_score = n.riskScore := by
  intro fl
  induction fl with
  | nil => intro acc hacc; exact hacc
  | cons i t ih =>
    intro acc hacc
    rw [List.foldl_cons]
    refine ih _ ?_
    cases hcase : nodes.find? (fun n => decide (n.id = i)) with
    | none => simpa [hcase] using hacc
    | some n =>
      intro a ha
      simp only [hcase] at ha
      rcases List.mem_append.mp ha with h | h
      · exact hacc a h
      · have : a = { account_id := n.id, suspicion_score := n.riskScore,
                     detected_patterns := n.patterns,
                     ring_id := (rings.find? (fun r => i ∈ r.members)).map fun r => r.id } := by
          simpa using h
        subst this
        exact ⟨n, List.mem_of_find?_eq_some hcase, rfl⟩

lemma buildSuspicious_scores (nodes : List Node) (rings : List FraudRing) (fl : List String) :
    ∀ a ∈ buildSuspicious nodes rings fl, ∃ n ∈ nodes, a.suspicion_score = n.riskScore := by
  refine buildSuspicious_from_node nodes rings fl [] ?_
  intro a ha
  simp at ha

/-! ## Shell dedup-key analysis (claim C4) -/

lemma string_toList_injective : Function.Injective String.toList := by
  intro s t h
  cases s
  cases t
  exact congrArg String.mk (by simpa using h)

lemma joinKey_inj {c1 c2 : List String} (h1 : c1 ≠ []) (h2 : c2 ≠ [])
    (f1 : ∀ s ∈ c1, '→' ∉ s.toList) (f2 : ∀ s ∈ c2, '→' ∉ s.toList)
    (h : joinKey c1 = joinKey c2) : c1 = c2 := by
  have e1 : (List.intercalate ['→'] (c1.map String.toList)).splitOn '→' = c1.map String.toList :=
    List.splitOn_intercalate (c1.map String.toList) '→'
      (by intro l hl; rcases List.mem_map.mp hl with ⟨s, hs, rfl⟩; exact f1 s hs)
      (by simpa using h1)
  have e2 : (List.intercalate ['→'] (c2.map String.toList)).splitOn '→' = c2.map String.toList :=
    List.splitOn_intercalate (c2.map String.toList) '→'
      (by intro l hl; rcases List.mem_map.mp hl with ⟨s, hs, rfl⟩; exact f2 s hs)
      (by simpa using h2)
  unfold joinKey at h
  rw [h, e2] at e1
  exact (List.map_injective_iff.mpr string_toList_injective e1).symm

/-- Arrow-freeness and nonemptiness of all recorded chains. -/
def SeqsOK (seqs : List (List String)) : Prop :=
  ∀ c ∈ seqs, c ≠ [] ∧ ∀ s ∈ c, '→' ∉ s.toList

lemma recordChain_agree {st : ShellState} {stq : ShellSeqState} (fullChain : List String)
    (hrings : st.rings = stq.rings) (hrec : st.recorded = stq.recordedSeqs.map joinKey)
    (hseqs : SeqsOK stq.recordedSeqs) (hne : fullChain ≠ [])
    (hfc : ∀ s ∈ fullChain, '→' ∉ s.toList) :
    (recordChain fullChain st).rings = (recordChainSeq fullChain stq).rings ∧
    (recordChain fullChain st).recorded = (recordChainSeq fullChain stq).recordedSeqs.map joinKey ∧
    SeqsOK (recordChainSeq fullChain stq).recordedSeqs := by
  have hiff : (joinKey fullChain ∈ st.recorded) ↔ fullChain ∈ stq.recordedSeqs := by
    rw [hrec]
    constructor
    · intro h
      rcases List.mem_map.mp h with ⟨c, hc, hkey⟩
      have := joinKey_inj (hseqs c hc).1 hne (hseqs c hc).2 hfc hkey
      rwa [← this]
    · intro h
      exact List.mem_map.mpr ⟨fullChain, h, rfl⟩
  simp only [recordChain, recordChainSeq]
  by_cases hmem : fullChain ∈ stq.recordedSeqs
  · rw [if_pos (hiff.mpr hmem), if_pos hmem]
    exact ⟨hrings, hrec, hseqs⟩
  · rw [if_neg (fun h => hmem (hiff.mp h)), if_neg hmem]
    refine ⟨by rw [hrings], ?_, ?_⟩
    · simp only [List.map_append, List.map_cons, List.map_nil]
      rw [hrec]
    · intro c hc
      rcases List.mem_append.mp hc with h | h
      · exact hseqs c h
      · have : c = fullChain := by simpa using h
        subst this
        exact ⟨hne, hfc⟩

lemma shellGo_agree (adj : String → List String) (cands : List String)
    (Hadj : ∀ a b, b ∈ adj a → '→' ∉ b.toList) :
    ∀ (fuel : Nat) (path neighbors : List String) (st : ShellState) (stq : ShellSeqState),
      st.rings = stq.rings → st.recorded = stq.recordedSeqs.map joinKey →
      SeqsOK stq.recordedSeqs → path ≠ [] → (∀ s ∈ path, '→' ∉ s.toList) →
      (∀ n ∈ neighbors, '→' ∉ n.toList) →
      (shellGo adj cands fuel path neighbors st).rings =
        (shellGoSeq adj cands fuel path neighbors stq).rings ∧
      (shellGo adj cands fuel path neighbors st).recorded =
        (shellGoSeq adj cands fuel path neighbors stq).recordedSeqs.map joinKey ∧
      SeqsOK (shellGoSeq adj cands fuel path neighbors stq).recordedSeqs := by
  intro fuel
  induction fuel with
  | zero =>
    intro path neighbors st stq h1 h2 h3 _ _ _
    simpa [shellGo, shellGoSeq] using ⟨h1, h2, h3⟩
  | succ fuel ih =>
    intro path neighbors st stq h1 h2 h3 hpne hpf hnf
    match neighbors with
    | [] => simpa [shellGo, shellGoSeq] using ⟨h1, h2, h3⟩
    | n :: rest =>
      rw [shellGo, shellGoSeq]
      have hnfn : '→' ∉ n.toList := hnf n (List.mem_cons_self _ _)
      have hnfrest : ∀ m ∈ rest, '→' ∉ m.toList := fun m hm => hnf m (List.mem_cons_of_mem _ hm)
      split
      · exact ih path rest st stq h1 h2 h3 hpne hpf hnfrest
      · split
        · have hdesc := ih (path ++ [n]) (adj n) st stq h1 h2 h3
            (by simp) (by
              intro s hs
              rcases List.mem_append.mp hs with h | h
              · exact hpf s h
              · have : s = n := by simpa using h
                subst this
                exact hnfn)
            (fun b hb => Hadj n b hb)
          exact ih path rest _ _ hdesc.1 hdesc.2.1 hdesc.2.2 hpne hpf hnfrest
        · split
          · have hrec := recordChain_agree (path ++ [n]) h1 h2 h3
              (by simp) (by
                intro s hs
                rcases List.mem_append.mp hs with h | h
                · exact hpf s h
                · have : s = n := by simpa using h
                  subst this
                  exact hnfn)
            exact ih path rest _ _ hrec.1 hrec.2.1 hrec.2.2 hpne hpf hnfrest
          · exact ih path rest st stq h1 h2 h3 hpne hpf hnfrest

/-- With arrow-free account ids, the source's joined-string dedup coincides
with the spec's exact member-sequence dedup. -/
lemma detectShells_eq_bySeq (g : GraphData) (adj : String → List String)
    (hnodes : ∀ n ∈ g.nodes, '→' ∉ n.id.toList)
    (Hadj : ∀ a b, b ∈ adj a → '→' ∉ b.toList) :
    detectShells g adj = detectShellsBySeq g adj := by
  unfold detectShells detectShellsBySeq
  have aux : ∀ (l : List Node), (∀ n ∈ l, '→' ∉ n.id.toList) →
      ∀ (st : ShellState) (stq : ShellSeqState),
        st.rings = stq.rings → st.recorded = stq.recordedSeqs.map joinKey →
        SeqsOK stq.recordedSeqs →
        (l.foldl (fun st node => if node.id ∈ shellCandidates g then st
            else shellGo adj (shellCandidates g) (shellFuel g) [node.id] (adj node.id) st) st).rings =
          (l.foldl (fun st node => if node.id ∈ shellCandidates g then st
            else shellGoSeq adj (shellCandidates g) (shellFuel g) [node.id] (adj node.id) st) stq).rings ∧
        (l.foldl (fun st node => if node.id ∈ shellCandidates g then st
            else shellGo adj (shellCandidates g) (shellFuel g) [node.id] (adj node.id) st) st).recorded =
          (l.foldl (fun st node => if node.id ∈ shellCandidates g then st
            else shellGoSeq adj (shellCandidates g) (shellFuel g) [node.id] (adj node.id) st) stq).recordedSeqs.map joinKey ∧
        SeqsOK (l.foldl (fun st node => if node.id ∈ shellCandidates g then st
            else shellGoSeq adj (shellCandidates g) (shellFuel g) [node.id] (adj node.id) st) stq).recordedSeqs := by
    intro l
    induction l with
    | nil => intro _ st stq h1 h2 h3; exact ⟨h1, h2, h3⟩
    | cons a t iht =>
      intro hl st stq h1 h2 h3
      rw [List.foldl_cons, List.foldl_cons]
      by_cases hc : a.id ∈ shellCandidates g
      · rw [if_pos hc, if_pos hc]
        exact iht (fun n hn => hl n (List.mem_cons_of_mem _ hn)) st stq h1 h2 h3
      · rw [if_neg hc, if_neg hc]
        have hgo := shellGo_agree adj (shellCandidates g) Hadj (shellFuel g)
          [a.id] (adj a.id) st stq h1 h2 h3 (by simp)
          (by
            intro s hs
            have : s = a.id := by simpa using hs
            subst this
            exact hl a (List.mem_cons_self _ _))
          (fun b hb => Hadj a.id b hb)
        exact iht (fun n hn => hl n (List.mem_cons_of_mem _ hn)) _ _ hgo.1 hgo.2.1 hgo.2.2
  exact (aux g.nodes hnodes { rings := [], recorded := [] }
    { rings := [], recordedSeqs := [] } rfl rfl (by intro c hc; simp at hc)).1

/-! ## Concrete inputs for tests, witnesses and counterexamples -/

/-- Test-fixture transaction. -/
def mkTx (s r : String) (t : Int) : Transaction :=
  { transaction_id := s ++ "-" ++ r, sender_id := s, receiver_id := r, amount := 1, timestamp := t }

/-- A 3-node directed cycle A→B→C→A. -/
def exCycleTxs : List Transaction := [mkTx "A" "B" 0, mkTx "B" "C" 0, mkTx "C" "A" 0]

/-- The chain Start→S1→S2→End with S1, S2 pure pass-throughs. -/
def exChainTxs : List Transaction := [mkTx "START" "S1" 0, mkTx "S1" "S2" 0, mkTx "S2" "END" 0]

/-- Two shell chains whose '→'-joined keys collide because two account ids
contain the separator character. -/
def exColTxs : List Transaction :=
  [mkTx "A" "S1" 0, mkTx "S1" "S2→S3" 0, mkTx "S2→S3" "B" 0,
   mkTx "A" "S1→S2" 0, mkTx "S1→S2" "S3" 0, mkTx "S3" "B" 0]

/-- Two overlapping shell chains (the first chain's key is a prefix of the
second's), both of which must be emitted. -/
def exOverTxs : List Transaction :=
  [mkTx "A" "S1" 0, mkTx "S1" "S2" 0, mkTx "S2" "B" 0, mkTx "S2" "B2" 0]

/-- A fan-in hub with a self-loop: H→H plus nine distinct senders into H. -/
def exSelfTxs : List Transaction :=
  [mkTx "H" "H" 0, mkTx "A1" "H" 0, mkTx "A2" "H" 0, mkTx "A3" "H" 0, mkTx "A4" "H" 0,
   mkTx "A5" "H" 0, mkTx "A6" "H" 0, mkTx "A7" "H" 0, mkTx "A8" "H" 0, mkTx "A9" "H" 0]

/-- A fan-in hub H with ten distinct senders inside a 9-hour span and exactly
two outgoing transactions. -/
def exFanTxs : List Transaction :=
  [mkTx "A0" "H" 0, mkTx "A1" "H" 3600000, mkTx "A2" "H" 7200000, mkTx "A3" "H" 10800000,
   mkTx "A4" "H" 14400000, mkTx "A5" "H" 18000000, mkTx "A6" "H" 21600000,
   mkTx "A7" "H" 25200000, mkTx "A8" "H" 28800000, mkTx "A9" "H" 32400000,
   mkTx "H" "X" 0, mkTx "H" "Y" 0]

/-- A graph in which node A lies in both a cycle and a shell chain, so its
suspicion score exceeds 50 and the orchestrator rewrites its `val` field. -/
def exValTxs : List Transaction :=
  [mkTx "A" "B" 0, mkTx "B" "C" 0, mkTx "C" "A" 0,
   mkTx "A" "S1" 0, mkTx "S1" "S2" 0, mkTx "S2" "D" 0, mkTx "E" "A" 0]

/-- Default ring used to select concrete rings out of computed lists. -/
def dRing : FraudRing :=
  { id := "", type := "", riskScore := 0, members := [], patternDetails := "" }

/-- The single cycle ring detected on `exCycleTxs`. -/
def cycRingA : FraudRing := ((analyzeGraph exCycleTxs).fraudRings).getD 0 dRing

/-- The first node (account A) of the analysed 3-cycle. -/
def cycNodeA : Node := ((analyzeGraph exCycleTxs).graph.nodes).getD 0 (freshNode "")

/-- The hub node H of `exFanTxs` (second node in first-seen order). -/
def fanHubNode : Node := ((buildGraph exFanTxs).nodes).getD 1 (freshNode "")

/-! ## Claim theorems -/

/-- C3: on the input whose transfer graph is the chain Start→S1→S2→End, where
S1 and S2 are exactly the shell candidates, the shell detector emits exactly
one ring, of type `shell`, with members [Start, S1, S2, End] and risk score
80. -/
theorem detectShells_chain_start_s1_s2_end :
    ((detectShells (buildGraph exChainTxs) (buildAdjacency (buildGraph exChainTxs).links)).map
        fun r => (r.type, r.riskScore, r.members)) =
      [("shell", 80, ["START", "S1", "S2", "END"])] ∧
    shellCandidates (buildGraph exChainTxs) = ["S1", "S2"] := by
  constructor
  · rfl
  · rfl

/-- C6: the temporal velocity check holds exactly when at least `c` timestamps
exist and some `c` consecutive entries of the ascending sort span at most `w`
hours (`w * 3600000` ms); with fewer than `c` timestamps it is false. -/
theorem hasHighVelocity_iff_window (ts : List Int) (c w : Nat) (hc : 1 ≤ c) :
    hasHighVelocity ts c w = true ↔
      c ≤ ts.length ∧ ∃ i, i + c ≤ ts.length ∧
        (ts.insertionSort (· ≤ ·)).getD (i + c - 1) 0 -
          (ts.insertionSort (· ≤ ·)).getD i 0 ≤ (w : Int) * 3600000 := by
  unfold hasHighVelocity
  by_cases hlen : ts.length < c
  · rw [if_pos hlen]
    simp only [Bool.false_eq_true, false_iff]
    rintro ⟨h1, -⟩
    omega
  · rw [if_neg hlen]
    rw [List.any_eq_true]
    have harith : (w : Int) * 60 * 60 * 1000 = (w : Int) * 3600000 := by ring
    constructor
    · rintro ⟨i, hi, hp⟩
      have hir := List.mem_range.mp hi
      refine ⟨by omega, i, by omega, ?_⟩
      have := of_decide_eq_true hp
      rwa [harith] at this
    · rintro ⟨hcle, i, hic, hspan⟩
      refine ⟨i, List.mem_range.mpr (by omega), decide_eq_true ?_⟩
      rwa [harith]

/-- C6 witness: two timestamps one hour apart satisfy the check with
`c = 2`, `w = 1`. -/
theorem hasHighVelocity_iff_window_witness :
    (1 ≤ 2) ∧
    (hasHighVelocity [3600000, 0] 2 1 = true ↔
      2 ≤ ([3600000, 0] : List Int).length ∧ ∃ i, i + 2 ≤ ([3600000, 0] : List Int).length ∧
        (([3600000, 0] : List Int).insertionSort (· ≤ ·)).getD (i + 2 - 1) 0 -
          (([3600000, 0] : List Int).insertionSort (· ≤ ·)).getD i 0 ≤ ((1 : Nat) : Int) * 3600000) :=
  ⟨by decide, hasHighVelocity_iff_window [3600000, 0] 2 1 (by decide)⟩

/-- C5: any node passing the merchant guard with in-degree ≥ 10, out-degree
≤ 2, at least 10 distinct senders and the 10-in-72h velocity check yields a
`fan_in` ring with members [node, …senders] and risk score 85. -/
theorem detectSmurfing_fanin_emits (g : GraphData) (n : Node)
    (hn : n ∈ g.nodes)
    (hguard : ¬(5 ≤ n.inDegree ∧ 5 ≤ n.outDegree))
    (hin : 10 ≤ n.inDegree) (hout : n.outDegree ≤ 2)
    (hsenders : 10 ≤ (uniqueFirst ((linksByTarget g.links n.id).map fun l => l.source)).length)
    (hvel : hasHighVelocity ((linksByTarget g.links n.id).map fun l => l.timestamp) 10 72 = true) :
    ∃ r ∈ detectSmurfing g (linksByTarget g.links) (linksBySource g.links),
      r.type = "fan_in" ∧ r.riskScore = 85 ∧
      r.members = n.id :: uniqueFirst ((linksByTarget g.links n.id).map fun l => l.source) :=
  detectSmurfing_fanin_aux g _ _ n hn hin hout hsenders hvel

/-- C5 witness: the hub of `exFanTxs` has out-degree exactly 2 and still
yields the fan-in ring. -/
theorem detectSmurfing_fanin_emits_witness :
    fanHubNode.outDegree = 2 ∧
    ∃ r ∈ detectSmurfing (buildGraph exFanTxs) (linksByTarget (buildGraph exFanTxs).links)
        (linksBySource (buildGraph exFanTxs).links),
      r.type = "fan_in" ∧ r.riskScore = 85 ∧
      r.members = fanHubNode.id ::
        uniqueFirst ((linksByTarget (buildGraph exFanTxs).links fanHubNode.id).map fun l => l.source) :=
  ⟨by decide,
   detectSmurfing_fanin_emits (buildGraph exFanTxs) fanHubNode (by decide) (by decide)
     (by decide) (by decide) (by decide) (by decide)⟩

/-- C7: every cycle ring has risk score 90 and traces a simple directed cycle
of 3-5 edges (its members are distinct, consecutive members are adjacent, and
the last member links back to the first), and no two emitted cycle rings share
a sorted comma-joined signature. -/
theorem detectCycles_sound_and_dedup (g : GraphData) (adj : String → List String) :
    (∀ r ∈ detectCycles g adj,
      r.riskScore = 90 ∧ 3 ≤ r.members.length ∧ r.members.length ≤ 5 ∧ r.members.Nodup ∧
      List.Chain' (fun a b => b ∈ adj a) r.members ∧
      (∀ h l, r.members.head? = some h → r.members.getLast? = some l → h ∈ adj l)) ∧
    ((detectCycles g adj).map fun r => cycleSig r.members).Nodup := by
  have h := detectCycles_inv g adj (fun _ => True) (fun _ _ _ => trivial) (fun _ _ => trivial)
  refine ⟨?_, h.2.1⟩
  intro r hr
  have hg := h.1 r hr
  exact ⟨hg.2.1, hg.2.2.1, hg.2.2.2.1, hg.2.2.2.2.1, hg.2.2.2.2.2.1, hg.2.2.2.2.2.2.1⟩

/-- C7 witness: the ring found on the concrete 3-cycle is scored 90 with
distinct members. -/
theorem detectCycles_sound_and_dedup_witness :
    cycRingA.riskScore = 90 ∧ cycRingA.members.Nodup := by
  have h := (detectCycles_sound_and_dedup (buildGraph exCycleTxs)
    (buildAdjacency (buildGraph exCycleTxs).links)).1 cycRingA (by decide)
  exact ⟨h.1, h.2.2.2.1⟩

lemma nodeIds_eq (ns : List Node) : nodeIds ns = ns.map fun n => n.id := rfl

lemma scored_map_ids (ns : List Node) :
    ((ns.map scoreNode).map fun n => n.id) = ns.map fun n => n.id := by
  rw [List.map_map]
  exact List.map_congr_left fun n _ => rfl

/-- C4 counterexample: with account ids containing the separator character
'→', two chains with different member sequences share one joined key; the
source suppresses the second although no emitted ring has its member
sequence, while the spec-worded member-sequence dedup emits both. -/
theorem detectShells_dedup_key_collision :
    ((detectShells (buildGraph exColTxs) (buildAdjacency (buildGraph exColTxs).links)).map
        fun r => r.members) = [["A", "S1", "S2→S3", "B"]] ∧
    ((detectShellsBySeq (buildGraph exColTxs) (buildAdjacency (buildGraph exColTxs).links)).map
        fun r => r.members) =
      [["A", "S1", "S2→S3", "B"], ["A", "S1→S2", "S3", "B"]] ∧
    ∀ r ∈ detectShells (buildGraph exColTxs) (buildAdjacency (buildGraph exColTxs).links),
      r.members ≠ ["A", "S1→S2", "S3", "B"] := by
  refine ⟨rfl, rfl, ?_⟩
  decide

/-- C4 (amended): shell dedup is by the exact '→'-joined member-sequence key;
when no account id contains '→' this coincides with dedup by the exact member
sequence, and overlapping (prefix-related) chains are still both emitted. -/
theorem detectShells_dedup_exact_key_amended :
    (∀ g : GraphData,
      (∀ n ∈ g.nodes, '→' ∉ n.id.toList) → (∀ l ∈ g.links, '→' ∉ l.target.toList) →
      detectShells g (buildAdjacency g.links) = detectShellsBySeq g (buildAdjacency g.links)) ∧
    ((detectShells (buildGraph exOverTxs) (buildAdjacency (buildGraph exOverTxs).links)).map
        fun r => r.members) = [["A", "S1", "S2", "B"], ["A", "S1", "S2", "B2"]] := by
  constructor
  · intro g h1 h2
    refine detectShells_eq_bySeq g _ h1 ?_
    intro a b hb
    rcases mem_buildAdjacency hb with ⟨l, hl, _, rfl⟩
    exact h2 l hl
  · rfl

/-- C4 witness: on the arrow-free chain input the two dedup disciplines agree. -/
theorem detectShells_dedup_exact_key_amended_witness :
    detectShells (buildGraph exChainTxs) (buildAdjacency (buildGraph exChainTxs).links) =
      detectShellsBySeq (buildGraph exChainTxs) (buildAdjacency (buildGraph exChainTxs).links) :=
  detectShells_dedup_exact_key_amended.1 (buildGraph exChainTxs) (by decide) (by decide)

/-- C1: after analysis every node's risk score is the additive pattern weight
sum (cycle 50, fan_in 30, fan_out 30, shell 25, high_velocity 15) capped at
100; a node carrying `cycle` and no other weighted pattern scores exactly 50. -/
theorem analyzeGraph_riskScore_additive (txs : List Transaction) :
    ∀ n ∈ (analyzeGraph txs).graph.nodes,
      n.riskScore = min 100
        ((if "cycle" ∈ n.patterns then 50 else 0) + (if "fan_in" ∈ n.patterns then 30 else 0) +
         (if "fan_out" ∈ n.patterns then 30 else 0) + (if "shell" ∈ n.patterns then 25 else 0) +
         (if "high_velocity" ∈ n.patterns then 15 else 0)) ∧
      ("cycle" ∈ n.patterns → "fan_in" ∉ n.patterns → "fan_out" ∉ n.patterns →
        "shell" ∉ n.patterns → "high_velocity" ∉ n.patterns → n.riskScore = 50) := by
  intro n hn
  rw [analyzeGraph_nodes] at hn
  rcases List.mem_map.mp hn with ⟨n0, _, rfl⟩
  have hps : (scoreNode n0).patterns = n0.patterns := rfl
  have hrs : (scoreNode n0).riskScore = computeSuspicionScore n0.patterns := rfl
  rw [hps, hrs]
  constructor
  · rw [computeSuspicionScore_eq]
  · intro h1 h2 h3 h4 h5
    rw [computeSuspicionScore_eq, if_pos h1, if_neg h2, if_neg h3, if_neg h4, if_neg h5]
    decide

/-- C1 witness: node A of the analysed 3-cycle carries only the cycle
patterns and scores exactly 50. -/
theorem analyzeGraph_riskScore_additive_witness : cycNodeA.riskScore = 50 :=
  (analyzeGraph_riskScore_additive exCycleTxs cycNodeA (by decide)).2
    (by decide) (by decide) (by decide) (by decide) (by decide)

/-- C2: for every ring and every member, the analysed graph contains a node
with that id whose pattern set holds the ring's type, its descriptive variant,
and `high_velocity` for fan_in/fan_out rings; pattern lists stay
duplicate-free (appends are guarded by absence checks). -/
theorem analyzeGraph_pattern_marking (txs : List Transaction) :
    (∀ r ∈ (analyzeGraph txs).fraudRings, ∀ m ∈ r.members,
      ∃ n ∈ (analyzeGraph txs).graph.nodes, n.id = m ∧
        r.type ∈ n.patterns ∧ descriptivePattern r ∈ n.patterns ∧
        ((r.type = "fan_in" ∨ r.type = "fan_out") → "high_velocity" ∈ n.patterns)) ∧
    ∀ n ∈ (analyzeGraph txs).graph.nodes, n.patterns.Nodup := by
  constructor
  · intro r hr m hm
    have hmid : m ∈ (buildGraph txs).nodes.map fun n => n.id := by
      have := analyzeGraph_members_in txs r hr m hm
      rwa [nodeIds_eq] at this
    have hmid' : m ∈ (markNodes (buildGraph txs).nodes (analyzeGraph txs).fraudRings).1.map
        fun n => n.id := by
      rw [markNodes_ids]
      exact hmid
    rcases List.mem_map.mp hmid' with ⟨n1, hn1, hid1⟩
    have hmk := markNodes_complete (buildGraph txs).nodes (analyzeGraph txs).fraudRings
      r hr m hm hmid n1 hn1 hid1
    refine ⟨scoreNode n1, ?_, hid1, hmk.1, hmk.2.1, hmk.2.2⟩
    rw [analyzeGraph_nodes]
    exact List.mem_map.mpr ⟨n1, hn1, rfl⟩
  · intro n hn
    rw [analyzeGraph_nodes] at hn
    rcases List.mem_map.mp hn with ⟨n0, hn0, rfl⟩
    show n0.patterns.Nodup
    refine markNodes_patterns_nodup _ _ ?_ n0 hn0
    intro n2 hn2
    rw [((buildGraph_inv txs).2 n2 hn2).1]
    exact List.nodup_nil

/-- C2 witness: member A of the concrete cycle ring carries `cycle` and
`cycle_length_3`. -/
theorem analyzeGraph_pattern_marking_witness :
    ∃ n ∈ (analyzeGraph exCycleTxs).graph.nodes, n.id = "A" ∧
      cycRingA.type ∈ n.patterns ∧ descriptivePattern cycRingA ∈ n.patterns ∧
      ((cycRingA.type = "fan_in" ∨ cycRingA.type = "fan_out") → "high_velocity" ∈ n.patterns) :=
  (analyzeGraph_pattern_marking exCycleTxs).1 cycRingA (by decide) "A" (by decide)

/-- C8: the suspicious-account list has pairwise-distinct account ids, holds
exactly the ids appearing in some ring's members, all scores lie within
[0,100] (scores are naturals, so ≤ 100 suffices), and the list is sorted
descending by score. -/
theorem analyzeGraph_suspicious_accounts_invariant (txs : List Transaction) :
    (((analyzeGraph txs).suspiciousAccounts.map fun a => a.account_id).Nodup) ∧
    (∀ i : String, (∃ a ∈ (analyzeGraph txs).suspiciousAccounts, a.account_id = i) ↔
      ∃ r ∈ (analyzeGraph txs).fraudRings, i ∈ r.members) ∧
    (∀ a ∈ (analyzeGraph txs).suspiciousAccounts, a.suspicion_score ≤ 100) ∧
    List.Pairwise (fun a b => b.suspicion_score ≤ a.suspicion_score)
      (analyzeGraph txs).suspiciousAccounts := by
  have hflag_sub : ∀ i ∈ (markNodes (buildGraph txs).nodes (analyzeGraph txs).fraudRings).2,
      i ∈ ((markNodes (buildGraph txs).nodes (analyzeGraph txs).fraudRings).1.map scoreNode).map
        fun n => n.id := by
    intro i hi
    rcases markNodes_flag_sound _ _ i hi with ⟨r, hr, him⟩
    have h2 := analyzeGraph_members_in txs r hr i him
    rw [scored_map_ids, markNodes_ids]
    rwa [nodeIds_eq] at h2
  have hmap : ((buildSuspicious
        ((markNodes (buildGraph txs).nodes (analyzeGraph txs).fraudRings).1.map scoreNode)
        (analyzeGraph txs).fraudRings
        (markNodes (buildGraph txs).nodes (analyzeGraph txs).fraudRings).2).map
      fun a => a.account_id) =
      (markNodes (buildGraph txs).nodes (analyzeGraph txs).fraudRings).2 :=
    buildSuspicious_map_account _ _ _ hflag_sub
  have hperm : (analyzeGraph txs).suspiciousAccounts.Perm
      (buildSuspicious
        ((markNodes (buildGraph txs).nodes (analyzeGraph txs).fraudRings).1.map scoreNode)
        (analyzeGraph txs).fraudRings
        (markNodes (buildGraph txs).nodes (analyzeGraph txs).fraudRings).2) := by
    rw [analyzeGraph_sus]
    exact List.perm_insertionSort susDesc _
  refine ⟨?_, ?_, ?_, ?_⟩
  · rw [(hperm.map fun a => a.account_id).nodup_iff, hmap]
    exact markNodes_flag_nodup _ _
  · intro i
    constructor
    · rintro ⟨a, ha, rfl⟩
      have ha' := hperm.subset ha
      refine markNodes_flag_sound (buildGraph txs).nodes (analyzeGraph txs).fraudRings
        a.account_id ?_
      rw [← hmap]
      exact List.mem_map_of_mem _ ha'
    · rintro ⟨r, hr, him⟩
      have hid : i ∈ (buildGraph txs).nodes.map fun n => n.id := by
        have := analyzeGraph_members_in txs r hr i him
        rwa [nodeIds_eq] at this
      have hfl := markNodes_flag_complete (buildGraph txs).nodes
        (analyzeGraph txs).fraudRings r hr i him hid
      have hmem : i ∈ (buildSuspicious
          ((markNodes (buildGraph txs).nodes (analyzeGraph txs).fraudRings).1.map scoreNode)
          (analyzeGraph txs).fraudRings
          (markNodes (buildGraph txs).nodes (analyzeGraph txs).fraudRings).2).map
            fun a => a.account_id := by
        rw [hmap]
        exact hfl
      rcases List.mem_map.mp hmem with ⟨a, ha, hai⟩
      exact ⟨a, hperm.mem_iff.mpr ha, hai⟩
  · intro a ha
    have ha' := hperm.subset ha
    rcases buildSuspicious_scores
      ((markNodes (buildGraph txs).nodes (analyzeGraph txs).fraudRings).1.map scoreNode)
      (analyzeGraph txs).fraudRings
      ((markNodes (buildGraph txs).nodes (analyzeGraph txs).fraudRings).2) a ha'
      with ⟨n, hn, hsc⟩
    rcases List.mem_map.mp hn with ⟨n0, _, rfl⟩
    rw [hsc]
    show computeSuspicionScore n0.patterns ≤ 100
    exact computeSuspicionScore_le _
  · rw [analyzeGraph_sus]
    exact List.sorted_insertionSort susDesc _

/-- C8 witness: account A of the analysed 3-cycle appears in the
suspicious-account list. -/
theorem analyzeGraph_suspicious_accounts_invariant_witness :
    ∃ a ∈ (analyzeGraph exCycleTxs).suspiciousAccounts, a.account_id = "A" :=
  ((analyzeGraph_suspicious_accounts_invariant exCycleTxs).2.1 "A").mpr (by decide)

/-- Every link of the built graph comes from an input transaction. -/
lemma buildGraph_links_from (txs : List Transaction) :
    ∀ l ∈ (buildGraph txs).links,
      ∃ tx ∈ txs, l.source = tx.sender_id ∧ l.target = tx.receiver_id := by
  have aux : ∀ (ts : List Transaction) (g : GraphData), ∀ l ∈ (ts.foldl buildStep g).links,
      l ∈ g.links ∨ ∃ tx ∈ ts, l.source = tx.sender_id ∧ l.target = tx.receiver_id := by
    intro ts
    induction ts with
    | nil => intro g l hl; exact Or.inl hl
    | cons a t ih =>
      intro g l hl
      rw [List.foldl_cons] at hl
      rcases ih (buildStep g a) l hl with h | h
      · unfold buildStep at h
        simp only at h
        rcases List.mem_append.mp h with h' | h'
        · exact Or.inl h'
        · have : l = { source := a.sender_id, target := a.receiver_id, amount := a.amount,
                       timestamp := a.timestamp, transaction_id := a.transaction_id } := by
            simpa using h'
          subst this
          exact Or.inr ⟨a, List.mem_cons_self _ _, rfl, rfl⟩
      · rcases h with ⟨tx, htx, h1, h2⟩
        exact Or.inr ⟨tx, List.mem_cons_of_mem _ htx, h1, h2⟩
  intro l hl
  rcases aux txs { nodes := [], links := [] } l hl with h | h
  · simp at h
  · exact h

/-- C9 counterexample: with a self-loop on the fan-in hub the emitted fan_in
ring lists the hub twice. -/
theorem fanin_selfloop_duplicate_member :
    ∃ r ∈ (analyzeGraph exSelfTxs).fraudRings, ¬ r.members.Nodup := by
  decide

/-- C9 (amended): cycle and shell rings never repeat a member; for inputs
without self-loop transactions no ring of any type repeats a member (a
self-looping hub can appear twice in a fan_in/fan_out ring). -/
theorem ring_members_nodup_amended (txs : List Transaction) :
    (∀ r ∈ (analyzeGraph txs).fraudRings,
      (r.type = "cycle" ∨ r.type = "shell") → r.members.Nodup) ∧
    ((∀ tx ∈ txs, tx.sender_id ≠ tx.receiver_id) →
      ∀ r ∈ (analyzeGraph txs).fraudRings, r.members.Nodup) := by
  have hcyc := detectCycles_inv (buildGraph txs) (buildAdjacency (buildGraph txs).links)
    (fun _ => True) (fun _ _ _ => trivial) (fun _ _ => trivial)
  have hshl := detectShells_good (buildGraph txs) (buildAdjacency (buildGraph txs).links)
    (fun _ => True) (fun _ _ _ => trivial) (fun _ _ => trivial)
  have hsm := detectSmurfing_shape (buildGraph txs) (linksByTarget (buildGraph txs).links)
    (linksBySource (buildGraph txs).links)
  constructor
  · intro r hr hty
    rw [analyzeGraph_fraudRings] at hr
    rcases List.mem_append.mp hr with hr1 | hr1
    · rcases List.mem_append.mp hr1 with hc | hs
      · exact (hcyc.1 r hc).2.2.2.2.1
      · rcases hsm r hs with ⟨n, _, hshape⟩
        rcases hshape with ⟨ht, _, _⟩ | ⟨ht, _, _⟩ <;>
          (rcases hty with h' | h' <;> (rw [ht] at h'; exact absurd h' (by decide)))
    · exact (hshl r hr1).2.2.2.1
  · intro hself r hr
    rw [analyzeGraph_fraudRings] at hr
    rcases List.mem_append.mp hr with hr1 | hr1
    · rcases List.mem_append.mp hr1 with hc | hs
      · exact (hcyc.1 r hc).2.2.2.2.1
      · rcases hsm r hs with ⟨n, _, hshape⟩
        rcases hshape with ⟨_, _, hmem⟩ | ⟨_, _, hmem⟩
        · rw [hmem]
          refine List.nodup_cons.mpr ⟨?_, uniqueFirst_nodup _⟩
          intro hmemid
          rcases List.mem_map.mp (mem_uniqueFirst.mp hmemid) with ⟨l, hl, hsrc⟩
          have hlt := mem_linksByTarget hl
          rcases buildGraph_links_from txs l hlt.1 with ⟨tx, htx, h1, h2⟩
          refine hself tx htx ?_
          rw [← h1, ← h2, hsrc, hlt.2]
        · rw [hmem]
          refine List.nodup_cons.mpr ⟨?_, uniqueFirst_nodup _⟩
          intro hmemid
          rcases List.mem_map.mp (mem_uniqueFirst.mp hmemid) with ⟨l, hl, htgt⟩
          have hls := mem_linksBySource hl
          rcases buildGraph_links_from txs l hls.1 with ⟨tx, htx, h1, h2⟩
          refine hself tx htx ?_
          rw [← h1, ← h2, htgt, hls.2]
    · exact (hshl r hr1).2.2.2.1

/-- C9 witness: the concrete cycle ring has distinct members under the
no-self-loop hypothesis. -/
theorem ring_members_nodup_amended_witness : cycRingA.members.Nodup :=
  (ring_members_nodup_amended exCycleTxs).2 (by decide) cycRingA (by decide)

lemma getD_map {α β : Type} (f : α → β) :
    ∀ (l : List α) (i : Nat) (d : α), (l.map f).getD i (f d) = f (l.getD i d)
  | [], _, _ => rfl
  | _ :: _, 0, _ => rfl
  | _ :: t, i + 1, d => getD_map f t i d

lemma getD_mem {α : Type} :
    ∀ (l : List α) (i : Nat) (d : α), i < l.length → l.getD i d ∈ l
  | [], i, _, h => absurd h (by simp)
  | _ :: _, 0, _, _ => List.mem_cons_self _ _
  | _ :: t, i + 1, d, h => List.mem_cons_of_mem _ (getD_mem t i d (by simpa using h))

/-- C10 counterexample: on `exValTxs` the orchestrator also rewrites the `val`
field of a flagged node (cycle + shell membership pushes its score past 50),
so patterns and riskScore are not the only mutated fields. -/
theorem analyzeGraph_mutates_val :
    ∃ n ∈ (analyzeGraph exValTxs).graph.nodes, ∃ n0 ∈ (buildGraph exValTxs).nodes,
      n.id = n0.id ∧ n.val ≠ n0.val := by
  decide

/-- C10 (amended): `analyzeGraph` changes only `patterns`, `riskScore` and
`val`; positionally, every node keeps its `id`, degrees, totals and flags, and
a node appearing in no ring keeps `riskScore = 0`, empty `patterns` and
`val = 1`. -/
theorem analyzeGraph_frame_amended (txs : List Transaction) :
    ((analyzeGraph txs).graph.nodes.length = (buildGraph txs).nodes.length) ∧
    ∀ i : Nat, i < (buildGraph txs).nodes.length →
      (((analyzeGraph txs).graph.nodes.getD i (freshNode "")).id
          = ((buildGraph txs).nodes.getD i (freshNode "")).id ∧
       ((analyzeGraph txs).graph.nodes.getD i (freshNode "")).inDegree
          = ((buildGraph txs).nodes.getD i (freshNode "")).inDegree ∧
       ((analyzeGraph txs).graph.nodes.getD i (freshNode "")).outDegree
          = ((buildGraph txs).nodes.getD i (freshNode "")).outDegree ∧
       ((analyzeGraph txs).graph.nodes.getD i (freshNode "")).totalIn
          = ((buildGraph txs).nodes.getD i (freshNode "")).totalIn ∧
       ((analyzeGraph txs).graph.nodes.getD i (freshNode "")).totalOut
          = ((buildGraph txs).nodes.getD i (freshNode "")).totalOut ∧
       ((analyzeGraph txs).graph.nodes.getD i (freshNode "")).flags
          = ((buildGraph txs).nodes.getD i (freshNode "")).flags) ∧
      ((∀ r ∈ (analyzeGraph txs).fraudRings,
          ((buildGraph txs).nodes.getD i (freshNode "")).id ∉ r.members) →
        ((analyzeGraph txs).graph.nodes.getD i (freshNode "")).riskScore = 0 ∧
        ((analyzeGraph txs).graph.nodes.getD i (freshNode "")).patterns = [] ∧
        ((analyzeGraph txs).graph.nodes.getD i (freshNode "")).val = 1) := by
  have hskel := markNodes_skeleton (buildGraph txs).nodes (analyzeGraph txs).fraudRings
  have hlen : (markNodes (buildGraph txs).nodes (analyzeGraph txs).fraudRings).1.length
      = (buildGraph txs).nodes.length := by
    simpa using congrArg List.length hskel
  have hres : ∀ i : Nat, (analyzeGraph txs).graph.nodes.getD i (freshNode "")
      = scoreNode ((markNodes (buildGraph txs).nodes (analyzeGraph txs).fraudRings).1.getD i
          (freshNode "")) := by
    intro i
    rw [analyzeGraph_nodes]
    exact getD_map scoreNode _ i (freshNode "")
  constructor
  · rw [analyzeGraph_nodes]
    rw [List.length_map]
    exact hlen
  · intro i hi
    have hsk : ((markNodes (buildGraph txs).nodes (analyzeGraph txs).fraudRings).1.map
          (fun n => (n.id, n.riskScore, n.flags, n.inDegree, n.outDegree, n.totalIn, n.totalOut, n.val))).getD i
          ((fun (n : Node) => (n.id, n.riskScore, n.flags, n.inDegree, n.outDegree, n.totalIn, n.totalOut, n.val)) (freshNode ""))
        = ((buildGraph txs).nodes.map
          (fun n => (n.id, n.riskScore, n.flags, n.inDegree, n.outDegree, n.totalIn, n.totalOut, n.val))).getD i
          ((fun (n : Node) => (n.id, n.riskScore, n.flags, n.inDegree, n.outDegree, n.totalIn, n.totalOut, n.val)) (freshNode "")) := by
      rw [hskel]
    rw [getD_map, getD_map] at hsk
    simp only [Prod.mk.injEq] at hsk
    obtain ⟨hid, hrsk, hflg, hind, houtd, hti, hto, hvl⟩ := hsk
    rw [hres i]
    refine ⟨⟨?_, ?_, ?_, ?_, ?_, ?_⟩, ?_⟩
    · exact hid
    · exact hind
    · exact houtd
    · exact hti
    · exact hto
    · exact hflg
    · intro hunf
      have hmi : (markNodes (buildGraph txs).nodes (analyzeGraph txs).fraudRings).1.getD i
          (freshNode "") ∈ (markNodes (buildGraph txs).nodes (analyzeGraph txs).fraudRings).1 :=
        getD_mem _ i (freshNode "") (by omega)
      have hpat : ((markNodes (buildGraph txs).nodes (analyzeGraph txs).fraudRings).1.getD i
          (freshNode "")).patterns = [] := by
        refine markNodes_unflagged _ _ ?_ _ hmi ?_
        · intro n2 hn2
          exact ((buildGraph_inv txs).2 n2 hn2).1
        · intro r hr
          rw [hid]
          exact hunf r hr
      refine ⟨?_, ?_, ?_⟩
      · show computeSuspicionScore _ = 0
        rw [hpat]
        decide
      · show ((markNodes (buildGraph txs).nodes (analyzeGraph txs).fraudRings).1.getD i
          (freshNode "")).patterns = []
        exact hpat
      · show (if 50 < computeSuspicionScore _ then 3 else 1) = 1
        rw [hpat]
        decide

/-- C10 witness: node E of `exValTxs` lies in no ring and keeps score 0,
empty patterns and `val = 1`. -/
theorem analyzeGraph_frame_amended_witness :
    ((analyzeGraph exValTxs).graph.nodes.getD 6 (freshNode "")).riskScore = 0 ∧
    ((analyzeGraph exValTxs).graph.nodes.getD 6 (freshNode "")).patterns = [] ∧
    ((analyzeGraph exValTxs).graph.nodes.getD 6 (freshNode "")).val = 1 :=
  ((analyzeGraph_frame_amended exValTxs).2 6 (by decide)).2 (by decide)

end FFE
